import Mathlib

set_option autoImplicit false

/-!
Shallow embedding of the portrait completion engine
(src/framework/src/trait_item_map.rs and src/codegen/src/util.rs).

Item payloads that the algorithm never inspects (types, bodies, bounds,
attributes, generics) are collapsed to opaque `Nat` tokens.  The
`HashMap<Ident, &Item>` fields of `TraitItemMap` / `ImplItemMap` are
embedded as association lists whose `insert` replaces an existing binding
in place, so the key set behaves exactly like the hash map's key set;
iteration order of the embedding is insertion order, one member of the
unspecified iteration orders the hash map may exhibit.
-/

namespace Portrait

/-- An associated constant declared in a trait (`syn::TraitItemConst`). -/
structure TraitItemConst where
  ident : String
  body : Nat
deriving DecidableEq, Repr

/-- A function signature (`syn::Signature`); only the identifier is inspected. -/
structure Signature where
  ident : String
  rest : Nat
deriving DecidableEq, Repr

/-- An associated function declared in a trait (`syn::TraitItemMethod`). -/
structure TraitItemMethod where
  sig : Signature
  body : Nat
deriving DecidableEq, Repr

/-- An associated type declared in a trait (`syn::TraitItemType`). -/
structure TraitItemType where
  ident : String
  body : Nat
deriving DecidableEq, Repr

/-- A trait item (`syn::TraitItem`); variants other than const, method and
type (macros, verbatim tokens, ...) are collapsed into `other`. -/
inductive TraitItem where
  | const : TraitItemConst → TraitItem
  | method : TraitItemMethod → TraitItem
  | type : TraitItemType → TraitItem
  | other : Nat → TraitItem
deriving DecidableEq, Repr

/-- An associated constant supplied by an impl (`syn::ImplItemConst`). -/
structure ImplItemConst where
  ident : String
  body : Nat
deriving DecidableEq, Repr

/-- An associated function supplied by an impl (`syn::ImplItemMethod`). -/
structure ImplItemMethod where
  sig : Signature
  body : Nat
deriving DecidableEq, Repr

/-- An associated type supplied by an impl (`syn::ImplItemType`). -/
structure ImplItemType where
  ident : String
  body : Nat
deriving DecidableEq, Repr

/-- An impl item (`syn::ImplItem`); variants other than const, method and
type are collapsed into `other`. -/
inductive ImplItem where
  | const : ImplItemConst → ImplItem
  | method : ImplItemMethod → ImplItem
  | type : ImplItemType → ImplItem
  | other : Nat → ImplItem
deriving DecidableEq, Repr

/-- An impl block (`syn::ItemImpl`): block-level metadata (attributes,
generics, the trait path, the self type), all opaque to the algorithm,
plus the list of items. -/
structure ItemImpl where
  attrs : Nat
  generics : Nat
  trait_path : Nat
  self_ty : Nat
  items : List ImplItem
deriving DecidableEq, Repr

/-- The tokens `syn::Error::new_spanned` is pointed at by `minus`:
always one of the three impl item variants. -/
inductive Spanned where
  | const : ImplItemConst → Spanned
  | method : ImplItemMethod → Spanned
  | type : ImplItemType → Spanned
deriving DecidableEq, Repr

/-- A `syn::Error`: an optional spanned-token pointer plus the message.
Errors built by `minus` carry `some` spanned item; generator-made errors
are arbitrary values of this type. -/
structure SynError where
  span : Option Spanned
  message : String
deriving DecidableEq, Repr

/-- Association-list insert mirroring `HashMap::insert`: an existing
binding of the key is replaced in place, a new key goes to the end. -/
def insertPair {α : Type} (k : String) (v : α) : List (String × α) → List (String × α)
  | [] => [(k, v)]
  | (k', v') :: rest => if k' = k then (k, v) :: rest else (k', v') :: insertPair k v rest

/-- Association-list removal mirroring `HashMap::remove`: `none` when the
key is absent, otherwise the list without the binding. -/
def removePair {α : Type} (k : String) : List (String × α) → Option (List (String × α))
  | [] => none
  | (k', v') :: rest =>
    if k' = k then some rest else (removePair k rest).map (fun l => (k', v') :: l)

/-- Association-list lookup mirroring `HashMap::get`. -/
def lookupPair {α : Type} (k : String) : List (String × α) → Option α
  | [] => none
  | (k', v) :: rest => if k' = k then some v else lookupPair k rest

/-- Indexes items in a trait by namespaced identifier (`TraitItemMap`). -/
structure TraitItemMap where
  consts : List (String × TraitItemConst)
  methods : List (String × TraitItemMethod)
  types : List (String × TraitItemType)
deriving DecidableEq, Repr

/-- One indexing step of `TraitItemMap::new`'s loop body. -/
def traitMapStep (map : TraitItemMap) (item : TraitItem) : TraitItemMap :=
  match item with
  | .const c => { map with consts := insertPair c.ident c map.consts }
  | .method m => { map with methods := insertPair m.sig.ident m map.methods }
  | .type t => { map with types := insertPair t.ident t map.types }
  | .other _ => map

/-- Constructs the trait item index from a slice of trait items
(`TraitItemMap::new`). -/
def TraitItemMap.new (trait_items : List TraitItem) : TraitItemMap :=
  trait_items.foldl traitMapStep ⟨[], [], []⟩

/-- Indexes items in an impl block by namespaced identifier (`ImplItemMap`). -/
structure ImplItemMap where
  consts : List (String × ImplItemConst)
  methods : List (String × ImplItemMethod)
  types : List (String × ImplItemType)
deriving DecidableEq, Repr

/-- One indexing step of `ImplItemMap::new`'s loop body. -/
def implMapStep (map : ImplItemMap) (item : ImplItem) : ImplItemMap :=
  match item with
  | .const c => { map with consts := insertPair c.ident c map.consts }
  | .method m => { map with methods := insertPair m.sig.ident m map.methods }
  | .type t => { map with types := insertPair t.ident t map.types }
  | .other _ => map

/-- Constructs the impl item index from an impl block (`ImplItemMap::new`). -/
def ImplItemMap.new (impl_block : ItemImpl) : ImplItemMap :=
  impl_block.items.foldl implMapStep ⟨[], [], []⟩

/-- One removal loop of `TraitItemMap::minus` (the Rust source repeats
this loop verbatim for each of the three kinds): remove each impl-side key
from the trait-side bucket, failing on the first key the trait lacks;
`mkErr` builds the spanned error for the offending impl item. -/
def minusList {α β : Type} (mkErr : β → SynError) :
    List (String × α) → List (String × β) → Except SynError (List (String × α))
  | acc, [] => .ok acc
  | acc, (ident, impl_item) :: rest =>
    match removePair ident acc with
    | some acc' => minusList mkErr acc' rest
    | none => .error (mkErr impl_item)

/-- The error built for an unmatched impl const: the spanned tokens of the
item plus the exact Rust message literal, in which `{ident}` is never
interpolated (the Rust code passes a plain string, not a format call). -/
def constErr (impl_item : ImplItemConst) : SynError :=
  ⟨some (.const impl_item), "no associated constant called {ident} in trait"⟩

/-- The error built for an unmatched impl method. -/
def methodErr (impl_item : ImplItemMethod) : SynError :=
  ⟨some (.method impl_item), "no associated function called {ident} in trait"⟩

/-- The error built for an unmatched impl type. -/
def typeErr (impl_item : ImplItemType) : SynError :=
  ⟨some (.type impl_item), "no associated type called {ident} in trait"⟩

/-- The const loop of `TraitItemMap::minus`. -/
def minusConsts : List (String × TraitItemConst) → List (String × ImplItemConst) →
    Except SynError (List (String × TraitItemConst)) :=
  minusList constErr

/-- The method loop of `TraitItemMap::minus`. -/
def minusMethods : List (String × TraitItemMethod) → List (String × ImplItemMethod) →
    Except SynError (List (String × TraitItemMethod)) :=
  minusList methodErr

/-- The type loop of `TraitItemMap::minus`. -/
def minusTypes : List (String × TraitItemType) → List (String × ImplItemType) →
    Except SynError (List (String × TraitItemType)) :=
  minusList typeErr

/-- Removes the items found in the impl, leaving only unimplemented items
(`TraitItemMap::minus`): consts first, then methods, then types, aborting
on the first unmatched impl item. -/
def TraitItemMap.minus (self : TraitItemMap) (impl_items : ImplItemMap) :
    Except SynError TraitItemMap := do
  let consts ← minusConsts self.consts impl_items.consts
  let methods ← minusMethods self.methods impl_items.methods
  let types ← minusTypes self.types impl_items.types
  .ok ⟨consts, methods, types⟩

/-- Shorthand for `TraitItemMap::new().minus(ImplItemMap::new())`
(`subtract_items`). -/
def subtract_items (trait_items : List TraitItem) (impl_block : ItemImpl) :
    Except SynError TraitItemMap :=
  (TraitItemMap.new trait_items).minus (ImplItemMap.new impl_block)

/-- The `Generator` trait: three fallible operations over a mutable
generator state `σ`, embedded in state-passing style. -/
structure Generator (σ : Type) where
  generate_const : σ → TraitItemConst → Except SynError (σ × ImplItemConst)
  generate_method : σ → TraitItemMethod → Except SynError (σ × ImplItemMethod)
  generate_type : σ → TraitItemType → Except SynError (σ × ImplItemType)

/-- One generation loop of `complete` (the Rust source repeats this loop
for each kind): generate for each residual item of the bucket and push
the wrapped result onto `output.items`, aborting on the first generator
error. -/
def completeLoop {σ α β : Type} (gen : σ → α → Except SynError (σ × β)) (wrap : β → ImplItem) :
    List (String × α) → ItemImpl → σ → Except SynError (ItemImpl × σ)
  | [], output, s => .ok (output, s)
  | (_, trait_item) :: rest, output, s =>
    match gen s trait_item with
    | .error e => .error e
    | .ok (s', impl_item) =>
      completeLoop gen wrap rest { output with items := output.items ++ [wrap impl_item] } s'

/-- Invokes the generator on each unimplemented item and returns a clone of
`impl_block` with the generated items (`complete`).  The final generator
state is returned alongside the block to make the call sequence
observable; the Rust function drops it. -/
def complete {σ : Type} (trait_items : List TraitItem) (impl_block : ItemImpl)
    (generator : Generator σ) (s : σ) : Except SynError (ItemImpl × σ) := do
  let output := impl_block
  let items ← subtract_items trait_items impl_block
  let (output, s) ← completeLoop generator.generate_const ImplItem.const items.consts output s
  let (output, s) ← completeLoop generator.generate_method ImplItem.method items.methods output s
  let (output, s) ← completeLoop generator.generate_type ImplItem.type items.types output s
  .ok (output, s)

/-- Collection form of one generation loop: the same call sequence as
`completeLoop`, returning the generated items as a list instead of
pushing them onto an output block. -/
def genLoop {σ α β : Type} (gen : σ → α → Except SynError (σ × β)) :
    List (String × α) → σ → Except SynError (List β × σ)
  | [], s => .ok ([], s)
  | (_, trait_item) :: rest, s =>
    match gen s trait_item with
    | .error e => .error e
    | .ok (s', impl_item) =>
      match genLoop gen rest s' with
      | .error e => .error e
      | .ok (l, s'') => .ok (impl_item :: l, s'')

/-- Collection form of the whole generation phase of `complete`: the
items all three loops generate, in generation order, with the threaded
generator state. -/
def genItems {σ : Type} (g : Generator σ) (m : TraitItemMap) (s : σ) :
    Except SynError (List ImplItem × σ) :=
  match genLoop g.generate_const m.consts s with
  | .error e => .error e
  | .ok (cs, s1) =>
    match genLoop g.generate_method m.methods s1 with
    | .error e => .error e
    | .ok (ms, s2) =>
      match genLoop g.generate_type m.types s2 with
      | .error e => .error e
      | .ok (tys, s3) =>
        .ok (cs.map ImplItem.const ++ ms.map ImplItem.method ++ tys.map ImplItem.type, s3)

/-- A `proc_macro2::Span`, opaque to the algorithm. -/
structure Span where
  tag : Nat
deriving DecidableEq, Repr

/-- A `syn::Error` as built by `syn::Error::new` in `Once::set`: a span
plus the message. -/
structure UtilError where
  span : Span
  message : String
deriving DecidableEq, Repr

/-- A write-once configuration slot (`Once<T>` in src/codegen/src/util.rs). -/
structure Once (T : Type) where
  val : Option (Span × T)
deriving DecidableEq, Repr

/-- The `Default` impl for `Once<T>`: the empty slot. -/
def Once.default (T : Type) : Once T := ⟨none⟩

/-- `Once::set`: `Option::replace` stores the new pair first; if a pair was
already present the call then fails, so the slot keeps the new value.
`join` abstracts `proc_macro2::Span::join`, which may fail (`Option`);
`unwrap_or(span)` becomes `Option.getD`.  The mutated slot is returned
alongside the `Result`. -/
def Once.set {T : Type} (self : Once T) (value : T) (span : Span)
    (join : Span → Span → Option Span) : Once T × Except UtilError Unit :=
  let old := self.val
  let self' : Once T := ⟨some (span, value)⟩
  match old with
  | some (old_span, _) =>
    (self', .error ⟨(join span old_span).getD span, "Argument cannot be set twice"⟩)
  | none => (self', .ok ())

/-- `Once::try_get`. -/
def Once.try_get {T : Type} (self : Once T) : Option T := self.val.map (fun p => p.2)

/-!  Observation helpers: item kinds, keys, identifier lists and coverage
predicates used to state the claims.  These are spec-side readings of the
item lists; the algorithm above never uses them. -/

/-- The three item kinds the engine matches on. -/
inductive ItemKind where
  | const
  | method
  | type
deriving DecidableEq, Repr

/-- The matching key of an impl item: its kind and identifier; `none` for
the ignored kinds. -/
def ImplItem.key : ImplItem → Option (ItemKind × String)
  | .const c => some (.const, c.ident)
  | .method m => some (.method, m.sig.ident)
  | .type t => some (.type, t.ident)
  | .other _ => none

/-- The impl item a spanned error points at, as a member of the block. -/
def Spanned.item : Spanned → ImplItem
  | .const c => .const c
  | .method m => .method m
  | .type t => .type t

/-- The kind of the item a spanned error points at. -/
def Spanned.kind : Spanned → ItemKind
  | .const _ => .const
  | .method _ => .method
  | .type _ => .type

/-- The identifier of the item a spanned error points at. -/
def Spanned.ident : Spanned → String
  | .const c => c.ident
  | .method m => m.sig.ident
  | .type t => t.ident

/-- The message `minus` produces for an unmatched item of each kind. -/
def matchMessage : ItemKind → String
  | .const => "no associated constant called {ident} in trait"
  | .method => "no associated function called {ident} in trait"
  | .type => "no associated type called {ident} in trait"

/-- Does the trait item list declare a constant named `i`? -/
def traitHasConstB (trait_items : List TraitItem) (i : String) : Bool :=
  trait_items.any fun item =>
    match item with
    | .const c => c.ident = i
    | _ => false

/-- Does the trait item list declare a method named `i`? -/
def traitHasMethodB (trait_items : List TraitItem) (i : String) : Bool :=
  trait_items.any fun item =>
    match item with
    | .method m => m.sig.ident = i
    | _ => false

/-- Does the trait item list declare an associated type named `i`? -/
def traitHasTypeB (trait_items : List TraitItem) (i : String) : Bool :=
  trait_items.any fun item =>
    match item with
    | .type t => t.ident = i
    | _ => false

/-- Does the trait item list declare an item of kind `k` named `i`? -/
def traitHasKindIdentB (trait_items : List TraitItem) (k : ItemKind) (i : String) : Bool :=
  match k with
  | .const => traitHasConstB trait_items i
  | .method => traitHasMethodB trait_items i
  | .type => traitHasTypeB trait_items i

/-- Does the impl block supply a constant named `i`? -/
def implHasConstB (impl_block : ItemImpl) (i : String) : Bool :=
  impl_block.items.any fun item =>
    match item with
    | .const c => c.ident = i
    | _ => false

/-- Does the impl block supply a method named `i`? -/
def implHasMethodB (impl_block : ItemImpl) (i : String) : Bool :=
  impl_block.items.any fun item =>
    match item with
    | .method m => m.sig.ident = i
    | _ => false

/-- Does the impl block supply an associated type named `i`? -/
def implHasTypeB (impl_block : ItemImpl) (i : String) : Bool :=
  impl_block.items.any fun item =>
    match item with
    | .type t => t.ident = i
    | _ => false

/-- Does the impl block supply an item of kind `k` named `i`? -/
def implHasKindIdentB (impl_block : ItemImpl) (k : ItemKind) (i : String) : Bool :=
  match k with
  | .const => implHasConstB impl_block i
  | .method => implHasMethodB impl_block i
  | .type => implHasTypeB impl_block i

/-- Every const, method and type item of the impl block has a trait item
of the same kind and identifier. -/
def implCoveredB (trait_items : List TraitItem) (impl_block : ItemImpl) : Bool :=
  impl_block.items.all fun item =>
    match item with
    | .const c => traitHasConstB trait_items c.ident
    | .method m => traitHasMethodB trait_items m.sig.ident
    | .type t => traitHasTypeB trait_items t.ident
    | .other _ => true

/-- Every const item of the impl block has a trait constant of the same
identifier (the coverage needed for the const pass of `minus` to succeed). -/
def implConstsCoveredB (trait_items : List TraitItem) (impl_block : ItemImpl) : Bool :=
  impl_block.items.all fun item =>
    match item with
    | .const c => traitHasConstB trait_items c.ident
    | _ => true

/-- Every const, method and type item of the trait has an impl item of the
same kind and identifier. -/
def traitCoveredB (trait_items : List TraitItem) (impl_block : ItemImpl) : Bool :=
  trait_items.all fun item =>
    match item with
    | .const c => implHasConstB impl_block c.ident
    | .method m => implHasMethodB impl_block m.sig.ident
    | .type t => implHasTypeB impl_block t.ident
    | .other _ => true

/-- The trait and the impl block declare exactly the same keys: each side's
const, method and type items are matched by the other side. -/
def mutualCoverB (trait_items : List TraitItem) (impl_block : ItemImpl) : Bool :=
  implCoveredB trait_items impl_block && traitCoveredB trait_items impl_block

/-- Identifiers of the trait's constants, in declaration order. -/
def traitConstIdents (trait_items : List TraitItem) : List String :=
  trait_items.filterMap fun item =>
    match item with
    | .const c => some c.ident
    | _ => none

/-- Identifiers of the trait's methods, in declaration order. -/
def traitMethodIdents (trait_items : List TraitItem) : List String :=
  trait_items.filterMap fun item =>
    match item with
    | .method m => some m.sig.ident
    | _ => none

/-- Identifiers of the trait's associated types, in declaration order. -/
def traitTypeIdents (trait_items : List TraitItem) : List String :=
  trait_items.filterMap fun item =>
    match item with
    | .type t => some t.ident
    | _ => none

/-- Identifiers of the impl block's constants, in declaration order. -/
def implConstIdents (impl_block : ItemImpl) : List String :=
  impl_block.items.filterMap fun item =>
    match item with
    | .const c => some c.ident
    | _ => none

/-- Identifiers of the impl block's methods, in declaration order. -/
def implMethodIdents (impl_block : ItemImpl) : List String :=
  impl_block.items.filterMap fun item =>
    match item with
    | .method m => some m.sig.ident
    | _ => none

/-- Identifiers of the impl block's associated types, in declaration order. -/
def implTypeIdents (impl_block : ItemImpl) : List String :=
  impl_block.items.filterMap fun item =>
    match item with
    | .type t => some t.ident
    | _ => none

/-- Key-and-item pair a trait item contributes to the const bucket. -/
def traitConstProj : TraitItem → Option (String × TraitItemConst)
  | .const c => some (c.ident, c)
  | _ => none

/-- Key-and-item pair a trait item contributes to the method bucket. -/
def traitMethodProj : TraitItem → Option (String × TraitItemMethod)
  | .method m => some (m.sig.ident, m)
  | _ => none

/-- Key-and-item pair a trait item contributes to the type bucket. -/
def traitTypeProj : TraitItem → Option (String × TraitItemType)
  | .type t => some (t.ident, t)
  | _ => none

/-- Key-and-item pair an impl item contributes to the const bucket. -/
def implConstProj : ImplItem → Option (String × ImplItemConst)
  | .const c => some (c.ident, c)
  | _ => none

/-- Key-and-item pair an impl item contributes to the method bucket. -/
def implMethodProj : ImplItem → Option (String × ImplItemMethod)
  | .method m => some (m.sig.ident, m)
  | _ => none

/-- Key-and-item pair an impl item contributes to the type bucket. -/
def implTypeProj : ImplItem → Option (String × ImplItemType)
  | .type t => some (t.ident, t)
  | _ => none

/-- Builds one bucket by inserting a list of key-and-item pairs in order
into an empty association list: the common shape of all six buckets. -/
def buildPairs {α : Type} (l : List (String × α)) : List (String × α) :=
  l.foldl (fun acc p => insertPair p.1 p.2 acc) []

/-- Keys of an association list. -/
def keysOf {α : Type} (l : List (String × α)) : List String :=
  l.map Prod.fst

/-- The last binding of key `i` in an association list read front to back:
the value that "last occurrence wins" ingestion keeps. -/
def lastPair {α : Type} (i : String) : List (String × α) → Option α
  | [] => none
  | (k, v) :: rest =>
    match lastPair i rest with
    | some v' => some v'
    | none => if k = i then some v else none

/-- Is an `Except` value a success? -/
def isOkE {ε α : Type} : Except ε α → Bool
  | .ok _ => true
  | .error _ => false

/-- One observable generator invocation: the operation called and the
identifier of the trait item passed to it. -/
inductive GenCall where
  | const : String → GenCall
  | method : String → GenCall
  | type : String → GenCall
deriving DecidableEq, Repr

/-- Wraps one generator operation so that every call appends an event to a
log threaded through the generator state; the wrapped operation behaves
exactly like the original one. -/
def traced {σ α β : Type} (ev : α → GenCall) (gen : σ → α → Except SynError (σ × β)) :
    σ × List GenCall → α → Except SynError ((σ × List GenCall) × β) :=
  fun p item =>
    match gen p.1 item with
    | .error e => .error e
    | .ok (s', out) => .ok ((s', p.2 ++ [ev item]), out)

/-- A generator instrumented to log every call it receives, in order. -/
def withTrace {σ : Type} (g : Generator σ) : Generator (σ × List GenCall) where
  generate_const := traced (fun item => GenCall.const item.ident) g.generate_const
  generate_method := traced (fun item => GenCall.method item.sig.ident) g.generate_method
  generate_type := traced (fun item => GenCall.type item.ident) g.generate_type

/-- The calls `complete` makes for the residual map `m`: one per residual
item, consts first, then methods, then types. -/
def traceOf (m : TraitItemMap) : List GenCall :=
  m.consts.map (fun p => GenCall.const p.2.ident)
    ++ m.methods.map (fun p => GenCall.method p.2.sig.ident)
    ++ m.types.map (fun p => GenCall.type p.2.ident)

/-- A concrete always-succeeding generator used in witnesses: it echoes
the trait item's identifier and fills the body with `0`. -/
def exGen : Generator Unit where
  generate_const := fun _ item => .ok ((), ⟨item.ident, 0⟩)
  generate_method := fun _ item => .ok ((), ⟨item.sig, 0⟩)
  generate_type := fun _ item => .ok ((), ⟨item.ident, 0⟩)

/-- A concrete generator used in witnesses that fails on every method. -/
def exFailGen : Generator Unit where
  generate_const := fun _ item => .ok ((), ⟨item.ident, 0⟩)
  generate_method := fun _ _ => .error ⟨none, "cannot synthesize"⟩
  generate_type := fun _ item => .ok ((), ⟨item.ident, 0⟩)

/-- The residual constants the spec expects: trait constants, in
declaration order, whose identifier the impl block does not supply as a
constant (under per-kind duplicate-free identifiers). -/
def residualConsts (ts : List TraitItem) (b : ItemImpl) : List (String × TraitItemConst) :=
  (ts.filterMap traitConstProj).filter (fun p => ! implHasConstB b p.1)

/-- The residual methods the spec expects. -/
def residualMethods (ts : List TraitItem) (b : ItemImpl) : List (String × TraitItemMethod) :=
  (ts.filterMap traitMethodProj).filter (fun p => ! implHasMethodB b p.1)

/-- The residual associated types the spec expects. -/
def residualTypes (ts : List TraitItem) (b : ItemImpl) : List (String × TraitItemType) :=
  (ts.filterMap traitTypeProj).filter (fun p => ! implHasTypeB b p.1)

/-- A generator that names each synthesized item after the trait item it
was generated from. -/
def GenPreservesIdent {σ : Type} (g : Generator σ) : Prop :=
  (∀ s c s' o, g.generate_const s c = .ok (s', o) → o.ident = c.ident)
    ∧ (∀ s m s' o, g.generate_method s m = .ok (s', o) → o.sig.ident = m.sig.ident)
    ∧ (∀ s t s' o, g.generate_type s t = .ok (s', o) → o.ident = t.ident)

/-- The generator succeeds, from any state, on every item of the residual
map `m`. -/
def GenTotalOn {σ : Type} (g : Generator σ) (m : TraitItemMap) : Prop :=
  (∀ s c, c ∈ m.consts.map Prod.snd → isOkE (g.generate_const s c) = true)
    ∧ (∀ s mm, mm ∈ m.methods.map Prod.snd → isOkE (g.generate_method s mm) = true)
    ∧ (∀ s t, t ∈ m.types.map Prod.snd → isOkE (g.generate_type s t) = true)

/-!  Association-list lemmas. -/

theorem keysOf_nil {α : Type} : keysOf ([] : List (String × α)) = [] := rfl

theorem keysOf_cons {α : Type} (p : String × α) (l : List (String × α)) :
    keysOf (p :: l) = p.1 :: keysOf l := rfl

theorem keysOf_append {α : Type} (l l' : List (String × α)) :
    keysOf (l ++ l') = keysOf l ++ keysOf l' := by
  simp [keysOf]

theorem mem_insertPair {α : Type} (k : String) (v : α) :
    ∀ (l : List (String × α)) (p : String × α), p ∈ insertPair k v l → p = (k, v) ∨ p ∈ l := by
  intro l
  induction l with
  | nil => intro p hp; simp [insertPair] at hp; exact Or.inl hp
  | cons q rest ih =>
    intro p hp
    obtain ⟨k', v'⟩ := q
    by_cases hk : k' = k
    · simp [insertPair, hk] at hp
      rcases hp with h | h
      · exact Or.inl (by simp [h])
      · exact Or.inr (List.mem_cons_of_mem _ h)
    · simp [insertPair, hk] at hp
      rcases hp with h | h
      · exact Or.inr (by simp [h])
      · rcases ih p h with h' | h'
        · exact Or.inl h'
        · exact Or.inr (List.mem_cons_of_mem _ h')

theorem mem_keys_insertPair {α : Type} (k : String) (v : α) :
    ∀ (l : List (String × α)) (k'' : String),
      k'' ∈ keysOf (insertPair k v l) ↔ k'' = k ∨ k'' ∈ keysOf l := by
  intro l
  induction l with
  | nil => intro k''; simp [insertPair, keysOf]
  | cons q rest ih =>
    intro k''
    obtain ⟨k', v'⟩ := q
    by_cases hk : k' = k
    · subst hk
      simp [insertPair, keysOf]
    · simp [insertPair, hk, keysOf] at *
      constructor
      · rintro (h | h)
        · exact Or.inr (Or.inl h)
        · rcases (ih k'').mp h with h' | h'
          · exact Or.inl h'
          · exact Or.inr (Or.inr h')
      · rintro (h | h | h)
        · exact Or.inr ((ih k'').mpr (Or.inl h))
        · exact Or.inl h
        · exact Or.inr ((ih k'').mpr (Or.inr h))

theorem nodup_keys_insertPair {α : Type} (k : String) (v : α) :
    ∀ l : List (String × α), (keysOf l).Nodup → (keysOf (insertPair k v l)).Nodup := by
  intro l
  induction l with
  | nil => intro _; simp [insertPair, keysOf]
  | cons q rest ih =>
    intro hnd
    obtain ⟨k', v'⟩ := q
    rw [keysOf_cons] at hnd
    obtain ⟨hk', hrest⟩ := List.nodup_cons.mp hnd
    by_cases hk : k' = k
    · subst hk
      simpa [insertPair, keysOf] using hnd
    · rw [show insertPair k v ((k', v') :: rest) = (k', v') :: insertPair k v rest by
        simp [insertPair, hk]]
      rw [keysOf_cons]
      refine List.nodup_cons.mpr ⟨?_, ih hrest⟩
      intro hmem
      rcases (mem_keys_insertPair k v rest k').mp hmem with h | h
      · exact hk h
      · exact hk' h

theorem insertPair_of_not_mem {α : Type} (k : String) (v : α) :
    ∀ l : List (String × α), k ∉ keysOf l → insertPair k v l = l ++ [(k, v)] := by
  intro l
  induction l with
  | nil => intro _; rfl
  | cons q rest ih =>
    intro hk
    obtain ⟨k', v'⟩ := q
    rw [keysOf_cons] at hk
    have hne : k' ≠ k := fun h => hk (by simp [h])
    have hk2 : k ∉ keysOf rest := fun h => hk (by simp [h])
    simp [insertPair, hne, ih hk2]

theorem removePair_eq_none {α : Type} (k : String) :
    ∀ l : List (String × α), removePair k l = none ↔ k ∉ keysOf l := by
  intro l
  induction l with
  | nil => simp [removePair, keysOf]
  | cons q rest ih =>
    obtain ⟨k', v'⟩ := q
    by_cases hk : k' = k
    · simp [removePair, hk, keysOf]
    · constructor
      · intro h hmem
        rw [keysOf_cons] at hmem
        rcases List.mem_cons.mp hmem with h' | h'
        · exact hk (by simpa using h'.symm)
        · refine (ih.mp ?_) h'
          cases hr : removePair k rest with
          | none => rfl
          | some r => rw [show removePair k ((k', v') :: rest)
              = (removePair k rest).map (fun l => (k', v') :: l) by simp [removePair, hk],
              hr] at h; simp at h
      · intro h
        have h1 : k ∉ keysOf rest := fun hm => h (by rw [keysOf_cons]; exact List.mem_cons_of_mem _ hm)
        simp [removePair, hk, ih.mpr h1]

theorem removePair_some_mem {α : Type} (k : String) :
    ∀ l l' : List (String × α), removePair k l = some l' → ∀ p ∈ l', p ∈ l := by
  intro l
  induction l with
  | nil => intro l' h; simp [removePair] at h
  | cons q rest ih =>
    intro l' h p hp
    obtain ⟨k', v'⟩ := q
    by_cases hk : k' = k
    · simp [removePair, hk] at h
      exact List.mem_cons_of_mem _ (h ▸ hp)
    · simp [removePair, hk] at h
      obtain ⟨r', hr', hl'⟩ := h
      rw [← hl'] at hp
      rcases List.mem_cons.mp hp with h' | h'
      · exact h' ▸ List.mem_cons_self _ _
      · exact List.mem_cons_of_mem _ (ih r' hr' p h')

theorem removePair_some_keys {α : Type} (k : String) :
    ∀ l l' : List (String × α), removePair k l = some l' → keysOf l' ⊆ keysOf l := by
  intro l l' h k'' hk''
  obtain ⟨p, hp, hfst⟩ := List.mem_map.mp hk''
  rw [← hfst]
  exact List.mem_map_of_mem Prod.fst (removePair_some_mem k l l' h p hp)

theorem removePair_some_key_mem {α : Type} (k : String) (l l' : List (String × α))
    (h : removePair k l = some l') : k ∈ keysOf l := by
  by_contra hk
  rw [← removePair_eq_none k l] at hk
  rw [h] at hk
  exact Option.noConfusion hk

theorem removePair_nodup_eq_filter {α : Type} (k : String) :
    ∀ l l' : List (String × α), (keysOf l).Nodup → removePair k l = some l' →
      l' = l.filter (fun p => p.1 ≠ k) := by
  intro l
  induction l with
  | nil => intro l' _ h; simp [removePair] at h
  | cons q rest ih =>
    intro l' hnd h
    obtain ⟨k', v'⟩ := q
    rw [keysOf_cons] at hnd
    obtain ⟨hk', hrest⟩ := List.nodup_cons.mp hnd
    by_cases hk : k' = k
    · subst hk
      simp [removePair] at h
      subst h
      have hk2 : k' ∉ keysOf rest := hk'
      have hall : ∀ p ∈ rest, p.1 ≠ k' := by
        intro p hp hfst
        apply hk2
        rw [← hfst]
        exact List.mem_map_of_mem Prod.fst hp
      have hstep : List.filter (fun p => p.1 ≠ k') ((k', v') :: rest)
          = List.filter (fun p => p.1 ≠ k') rest := by
        simp [List.filter_cons]
      rw [hstep]
      symm
      apply List.filter_eq_self.mpr
      intro p hp
      simpa using hall p hp
    · simp [removePair, hk] at h
      obtain ⟨r', hr', hl'⟩ := h
      have hstep : List.filter (fun p => p.1 ≠ k) ((k', v') :: rest)
          = (k', v') :: List.filter (fun p => p.1 ≠ k) rest := by
        simp [List.filter_cons, hk]
      rw [hstep, ← hl', ih r' hrest hr']

/-!  Lemmas about bucket building (`buildPairs` and the two `new`s). -/

theorem foldl_insert_keys_nodup {α : Type} :
    ∀ (l acc : List (String × α)), (keysOf acc).Nodup →
      (keysOf (l.foldl (fun acc p => insertPair p.1 p.2 acc) acc)).Nodup := by
  intro l
  induction l with
  | nil => intro acc h; exact h
  | cons p rest ih =>
    intro acc h
    exact ih _ (nodup_keys_insertPair p.1 p.2 acc h)

theorem buildPairs_keys_nodup {α : Type} (l : List (String × α)) :
    (keysOf (buildPairs l)).Nodup :=
  foldl_insert_keys_nodup l [] (by simp [keysOf])

theorem mem_keys_foldl_insert {α : Type} :
    ∀ (l acc : List (String × α)) (k : String),
      k ∈ keysOf (l.foldl (fun acc p => insertPair p.1 p.2 acc) acc) ↔
        k ∈ keysOf acc ∨ k ∈ keysOf l := by
  intro l
  induction l with
  | nil => intro acc k; simp [keysOf]
  | cons p rest ih =>
    intro acc k
    rw [List.foldl_cons, ih, mem_keys_insertPair, keysOf_cons]
    simp [List.mem_cons]
    tauto

theorem mem_keys_buildPairs {α : Type} (l : List (String × α)) (k : String) :
    k ∈ keysOf (buildPairs l) ↔ k ∈ keysOf l := by
  have := mem_keys_foldl_insert l [] k
  simpa [buildPairs, keysOf] using this

theorem mem_foldl_insert {α : Type} :
    ∀ (l acc : List (String × α)) (p : String × α),
      p ∈ l.foldl (fun acc q => insertPair q.1 q.2 acc) acc → p ∈ acc ∨ p ∈ l := by
  intro l
  induction l with
  | nil => intro acc p h; exact Or.inl h
  | cons q rest ih =>
    intro acc p h
    rcases ih _ p h with h' | h'
    · rcases mem_insertPair q.1 q.2 acc p h' with h2 | h2
      · right
        rw [show (q.1, q.2) = q from rfl] at h2
        exact h2 ▸ List.mem_cons_self _ _
      · exact Or.inl h2
    · exact Or.inr (List.mem_cons_of_mem _ h')

theorem mem_buildPairs {α : Type} (l : List (String × α)) (p : String × α)
    (h : p ∈ buildPairs l) : p ∈ l := by
  rcases mem_foldl_insert l [] p h with h' | h'
  · simp at h'
  · exact h'

theorem foldl_insert_of_disjoint {α : Type} :
    ∀ (l acc : List (String × α)), (keysOf l).Nodup →
      (∀ k ∈ keysOf l, k ∉ keysOf acc) →
      l.foldl (fun acc q => insertPair q.1 q.2 acc) acc = acc ++ l := by
  intro l
  induction l with
  | nil => intro acc _ _; simp
  | cons q rest ih =>
    intro acc hnd hdisj
    rw [keysOf_cons] at hnd
    obtain ⟨hq, hrest⟩ := List.nodup_cons.mp hnd
    rw [List.foldl_cons,
      insertPair_of_not_mem q.1 q.2 acc (hdisj q.1 (by rw [keysOf_cons]; exact List.mem_cons_self _ _)),
      ih (acc ++ [q]) hrest ?_]
    · simp
    · intro k hk
      rw [keysOf_append]
      intro hmem
      rcases List.mem_append.mp hmem with h | h
      · exact hdisj k (by rw [keysOf_cons]; exact List.mem_cons_of_mem _ hk) h
      · have : k = q.1 := by simpa [keysOf] using h
        exact hq (this ▸ hk)

theorem buildPairs_of_nodup {α : Type} (l : List (String × α))
    (h : (keysOf l).Nodup) : buildPairs l = l := by
  have := foldl_insert_of_disjoint l [] h (by intro k _; simp [keysOf])
  simpa [buildPairs] using this

theorem lookupPair_insertPair {α : Type} (k : String) (v : α) :
    ∀ (l : List (String × α)) (i : String),
      lookupPair i (insertPair k v l) = if k = i then some v else lookupPair i l := by
  intro l
  induction l with
  | nil => intro i; simp [insertPair, lookupPair]
  | cons q rest ih =>
    intro i
    obtain ⟨k', v'⟩ := q
    by_cases hk : k' = k
    · subst hk
      by_cases hi : k' = i <;> simp [insertPair, lookupPair, hi]
    · have hstep : insertPair k v ((k', v') :: rest) = (k', v') :: insertPair k v rest := by
        simp [insertPair, hk]
      rw [hstep]
      by_cases h1 : k' = i
      · subst h1
        by_cases h2 : k = k'
        · exact absurd h2.symm hk
        · simp [lookupPair, h2]
      · simp [lookupPair, h1, ih]

theorem lookup_foldl_insert {α : Type} :
    ∀ (l acc : List (String × α)) (i : String),
      lookupPair i (l.foldl (fun acc p => insertPair p.1 p.2 acc) acc) =
        match lastPair i l with
        | some v => some v
        | none => lookupPair i acc := by
  intro l
  induction l with
  | nil => intro acc i; simp [lastPair]
  | cons q rest ih =>
    intro acc i
    rw [List.foldl_cons, ih]
    cases h : lastPair i rest <;> by_cases hi : q.1 = i <;>
      simp [lastPair, h, hi, lookupPair_insertPair]

theorem lookupPair_buildPairs {α : Type} (l : List (String × α)) (i : String) :
    lookupPair i (buildPairs l) = lastPair i l := by
  have := lookup_foldl_insert l [] i
  cases h : lastPair i l <;> simp [h, buildPairs, lookupPair] at this ⊢ <;> exact this

/-- The three buckets of the trait-item fold, each expressed as a
`buildPairs` run over the projection of the item list. -/
theorem traitMap_foldl_buckets :
    ∀ (ts : List TraitItem) (m : TraitItemMap),
      (ts.foldl traitMapStep m).consts
          = (ts.filterMap traitConstProj).foldl (fun acc p => insertPair p.1 p.2 acc) m.consts
        ∧ (ts.foldl traitMapStep m).methods
          = (ts.filterMap traitMethodProj).foldl (fun acc p => insertPair p.1 p.2 acc) m.methods
        ∧ (ts.foldl traitMapStep m).types
          = (ts.filterMap traitTypeProj).foldl (fun acc p => insertPair p.1 p.2 acc) m.types := by
  intro ts
  induction ts with
  | nil => intro m; exact ⟨rfl, rfl, rfl⟩
  | cons item rest ih =>
    intro m
    cases item with
    | const c =>
      simpa [traitMapStep, traitConstProj, traitMethodProj, traitTypeProj,
        List.filterMap_cons] using ih (traitMapStep m (.const c))
    | method mm =>
      simpa [traitMapStep, traitConstProj, traitMethodProj, traitTypeProj,
        List.filterMap_cons] using ih (traitMapStep m (.method mm))
    | type t =>
      simpa [traitMapStep, traitConstProj, traitMethodProj, traitTypeProj,
        List.filterMap_cons] using ih (traitMapStep m (.type t))
    | other n =>
      simpa [traitMapStep, traitConstProj, traitMethodProj, traitTypeProj,
        List.filterMap_cons] using ih (traitMapStep m (.other n))

theorem traitMap_new_consts (ts : List TraitItem) :
    (TraitItemMap.new ts).consts = buildPairs (ts.filterMap traitConstProj) :=
  (traitMap_foldl_buckets ts ⟨[], [], []⟩).1

theorem traitMap_new_methods (ts : List TraitItem) :
    (TraitItemMap.new ts).methods = buildPairs (ts.filterMap traitMethodProj) :=
  (traitMap_foldl_buckets ts ⟨[], [], []⟩).2.1

theorem traitMap_new_types (ts : List TraitItem) :
    (TraitItemMap.new ts).types = buildPairs (ts.filterMap traitTypeProj) :=
  (traitMap_foldl_buckets ts ⟨[], [], []⟩).2.2

/-- The three buckets of the impl-item fold, each expressed as a
`buildPairs` run over the projection of the block's item list. -/
theorem implMap_foldl_buckets :
    ∀ (il : List ImplItem) (m : ImplItemMap),
      (il.foldl implMapStep m).consts
          = (il.filterMap implConstProj).foldl (fun acc p => insertPair p.1 p.2 acc) m.consts
        ∧ (il.foldl implMapStep m).methods
          = (il.filterMap implMethodProj).foldl (fun acc p => insertPair p.1 p.2 acc) m.methods
        ∧ (il.foldl implMapStep m).types
          = (il.filterMap implTypeProj).foldl (fun acc p => insertPair p.1 p.2 acc) m.types := by
  intro il
  induction il with
  | nil => intro m; exact ⟨rfl, rfl, rfl⟩
  | cons item rest ih =>
    intro m
    cases item with
    | const c =>
      simpa [implMapStep, implConstProj, implMethodProj, implTypeProj,
        List.filterMap_cons] using ih (implMapStep m (.const c))
    | method mm =>
      simpa [implMapStep, implConstProj, implMethodProj, implTypeProj,
        List.filterMap_cons] using ih (implMapStep m (.method mm))
    | type t =>
      simpa [implMapStep, implConstProj, implMethodProj, implTypeProj,
        List.filterMap_cons] using ih (implMapStep m (.type t))
    | other n =>
      simpa [implMapStep, implConstProj, implMethodProj, implTypeProj,
        List.filterMap_cons] using ih (implMapStep m (.other n))

theorem implMap_new_consts (b : ItemImpl) :
    (ImplItemMap.new b).consts = buildPairs (b.items.filterMap implConstProj) :=
  (implMap_foldl_buckets b.items ⟨[], [], []⟩).1

theorem implMap_new_methods (b : ItemImpl) :
    (ImplItemMap.new b).methods = buildPairs (b.items.filterMap implMethodProj) :=
  (implMap_foldl_buckets b.items ⟨[], [], []⟩).2.1

theorem implMap_new_types (b : ItemImpl) :
    (ImplItemMap.new b).types = buildPairs (b.items.filterMap implTypeProj) :=
  (implMap_foldl_buckets b.items ⟨[], [], []⟩).2.2

/-!  Connecting bucket keys to the identifier lists of the item lists. -/

theorem keys_filterMap_eq {γ α : Type} (f : γ → Option (String × α)) (g : γ → Option String)
    (h : ∀ x, (f x).map Prod.fst = g x) :
    ∀ l : List γ, keysOf (l.filterMap f) = l.filterMap g := by
  intro l
  induction l with
  | nil => rfl
  | cons x rest ih =>
    cases hf : f x with
    | none =>
      have hg : g x = none := by rw [← h x, hf]; rfl
      simp [List.filterMap_cons, hf, hg, ih]
    | some p =>
      have hg : g x = some p.1 := by rw [← h x, hf]; rfl
      simp [List.filterMap_cons, hf, hg, keysOf_cons, ih]

theorem keys_traitConstPairs (ts : List TraitItem) :
    keysOf (ts.filterMap traitConstProj) = traitConstIdents ts :=
  keys_filterMap_eq traitConstProj _ (fun x => by cases x <;> rfl) ts

theorem keys_traitMethodPairs (ts : List TraitItem) :
    keysOf (ts.filterMap traitMethodProj) = traitMethodIdents ts :=
  keys_filterMap_eq traitMethodProj _ (fun x => by cases x <;> rfl) ts

theorem keys_traitTypePairs (ts : List TraitItem) :
    keysOf (ts.filterMap traitTypeProj) = traitTypeIdents ts :=
  keys_filterMap_eq traitTypeProj _ (fun x => by cases x <;> rfl) ts

theorem keys_implConstPairs (b : ItemImpl) :
    keysOf (b.items.filterMap implConstProj) = implConstIdents b :=
  keys_filterMap_eq implConstProj _ (fun x => by cases x <;> rfl) b.items

theorem keys_implMethodPairs (b : ItemImpl) :
    keysOf (b.items.filterMap implMethodProj) = implMethodIdents b :=
  keys_filterMap_eq implMethodProj _ (fun x => by cases x <;> rfl) b.items

theorem keys_implTypePairs (b : ItemImpl) :
    keysOf (b.items.filterMap implTypeProj) = implTypeIdents b :=
  keys_filterMap_eq implTypeProj _ (fun x => by cases x <;> rfl) b.items

theorem traitHasConstB_iff (ts : List TraitItem) (i : String) :
    traitHasConstB ts i = true ↔ i ∈ traitConstIdents ts := by
  simp only [traitHasConstB, traitConstIdents, List.any_eq_true, List.mem_filterMap]
  constructor
  · rintro ⟨item, hmem, hc⟩
    exact ⟨item, hmem, by cases item <;> simp_all⟩
  · rintro ⟨item, hmem, hc⟩
    exact ⟨item, hmem, by cases item <;> simp_all⟩

theorem traitHasMethodB_iff (ts : List TraitItem) (i : String) :
    traitHasMethodB ts i = true ↔ i ∈ traitMethodIdents ts := by
  simp only [traitHasMethodB, traitMethodIdents, List.any_eq_true, List.mem_filterMap]
  constructor
  · rintro ⟨item, hmem, hc⟩
    exact ⟨item, hmem, by cases item <;> simp_all⟩
  · rintro ⟨item, hmem, hc⟩
    exact ⟨item, hmem, by cases item <;> simp_all⟩

theorem traitHasTypeB_iff (ts : List TraitItem) (i : String) :
    traitHasTypeB ts i = true ↔ i ∈ traitTypeIdents ts := by
  simp only [traitHasTypeB, traitTypeIdents, List.any_eq_true, List.mem_filterMap]
  constructor
  · rintro ⟨item, hmem, hc⟩
    exact ⟨item, hmem, by cases item <;> simp_all⟩
  · rintro ⟨item, hmem, hc⟩
    exact ⟨item, hmem, by cases item <;> simp_all⟩

theorem implHasConstB_iff (b : ItemImpl) (i : String) :
    implHasConstB b i = true ↔ i ∈ implConstIdents b := by
  simp only [implHasConstB, implConstIdents, List.any_eq_true, List.mem_filterMap]
  constructor
  · rintro ⟨item, hmem, hc⟩
    exact ⟨item, hmem, by cases item <;> simp_all⟩
  · rintro ⟨item, hmem, hc⟩
    exact ⟨item, hmem, by cases item <;> simp_all⟩

theorem implHasMethodB_iff (b : ItemImpl) (i : String) :
    implHasMethodB b i = true ↔ i ∈ implMethodIdents b := by
  simp only [implHasMethodB, implMethodIdents, List.any_eq_true, List.mem_filterMap]
  constructor
  · rintro ⟨item, hmem, hc⟩
    exact ⟨item, hmem, by cases item <;> simp_all⟩
  · rintro ⟨item, hmem, hc⟩
    exact ⟨item, hmem, by cases item <;> simp_all⟩

theorem implHasTypeB_iff (b : ItemImpl) (i : String) :
    implHasTypeB b i = true ↔ i ∈ implTypeIdents b := by
  simp only [implHasTypeB, implTypeIdents, List.any_eq_true, List.mem_filterMap]
  constructor
  · rintro ⟨item, hmem, hc⟩
    exact ⟨item, hmem, by cases item <;> simp_all⟩
  · rintro ⟨item, hmem, hc⟩
    exact ⟨item, hmem, by cases item <;> simp_all⟩

theorem mem_keys_traitMap_consts (ts : List TraitItem) (i : String) :
    i ∈ keysOf (TraitItemMap.new ts).consts ↔ traitHasConstB ts i = true := by
  rw [traitMap_new_consts, mem_keys_buildPairs, keys_traitConstPairs, traitHasConstB_iff]

theorem mem_keys_traitMap_methods (ts : List TraitItem) (i : String) :
    i ∈ keysOf (TraitItemMap.new ts).methods ↔ traitHasMethodB ts i = true := by
  rw [traitMap_new_methods, mem_keys_buildPairs, keys_traitMethodPairs, traitHasMethodB_iff]

theorem mem_keys_traitMap_types (ts : List TraitItem) (i : String) :
    i ∈ keysOf (TraitItemMap.new ts).types ↔ traitHasTypeB ts i = true := by
  rw [traitMap_new_types, mem_keys_buildPairs, keys_traitTypePairs, traitHasTypeB_iff]

theorem mem_keys_implMap_consts (b : ItemImpl) (i : String) :
    i ∈ keysOf (ImplItemMap.new b).consts ↔ implHasConstB b i = true := by
  rw [implMap_new_consts, mem_keys_buildPairs, keys_implConstPairs, implHasConstB_iff]

theorem mem_keys_implMap_methods (b : ItemImpl) (i : String) :
    i ∈ keysOf (ImplItemMap.new b).methods ↔ implHasMethodB b i = true := by
  rw [implMap_new_methods, mem_keys_buildPairs, keys_implMethodPairs, implHasMethodB_iff]

theorem mem_keys_implMap_types (b : ItemImpl) (i : String) :
    i ∈ keysOf (ImplItemMap.new b).types ↔ implHasTypeB b i = true := by
  rw [implMap_new_types, mem_keys_buildPairs, keys_implTypePairs, implHasTypeB_iff]

theorem traitMap_keys_nodup_consts (ts : List TraitItem) :
    (keysOf (TraitItemMap.new ts).consts).Nodup := by
  rw [traitMap_new_consts]; exact buildPairs_keys_nodup _

theorem traitMap_keys_nodup_methods (ts : List TraitItem) :
    (keysOf (TraitItemMap.new ts).methods).Nodup := by
  rw [traitMap_new_methods]; exact buildPairs_keys_nodup _

theorem traitMap_keys_nodup_types (ts : List TraitItem) :
    (keysOf (TraitItemMap.new ts).types).Nodup := by
  rw [traitMap_new_types]; exact buildPairs_keys_nodup _

theorem implMap_keys_nodup_consts (b : ItemImpl) :
    (keysOf (ImplItemMap.new b).consts).Nodup := by
  rw [implMap_new_consts]; exact buildPairs_keys_nodup _

theorem implMap_keys_nodup_methods (b : ItemImpl) :
    (keysOf (ImplItemMap.new b).methods).Nodup := by
  rw [implMap_new_methods]; exact buildPairs_keys_nodup _

theorem implMap_keys_nodup_types (b : ItemImpl) :
    (keysOf (ImplItemMap.new b).types).Nodup := by
  rw [implMap_new_types]; exact buildPairs_keys_nodup _

/-!  Lemmas about the removal loops (`minusList`). -/

theorem keysOf_filter {α : Type} (q : String → Bool) :
    ∀ l : List (String × α), keysOf (l.filter (fun p => q p.1)) = (keysOf l).filter q := by
  intro l
  induction l with
  | nil => rfl
  | cons x rest ih =>
    cases hq : q x.1 <;> simp [List.filter_cons, keysOf_cons, hq, ih]

theorem keysOf_filter_ne {α : Type} (k : String) (l : List (String × α)) :
    keysOf (l.filter (fun p => p.1 ≠ k)) = (keysOf l).filter (fun x => x ≠ k) :=
  keysOf_filter (fun x => decide (x ≠ k)) l

theorem filter_keys_cons {α : Type} (k : String) (ks : List String) :
    ∀ l : List (String × α),
      (l.filter (fun p => p.1 ≠ k)).filter (fun p => p.1 ∉ ks)
        = l.filter (fun p => p.1 ∉ k :: ks) := by
  intro l
  induction l with
  | nil => rfl
  | cons q rest ih =>
    by_cases h1 : q.1 = k
    · rw [show List.filter (fun p => p.1 ≠ k) (q :: rest)
          = List.filter (fun p => p.1 ≠ k) rest by simp [List.filter_cons, h1]]
      rw [show List.filter (fun p => p.1 ∉ k :: ks) (q :: rest)
          = List.filter (fun p => p.1 ∉ k :: ks) rest by
        simp [List.filter_cons, List.mem_cons, h1]]
      exact ih
    · rw [show List.filter (fun p => p.1 ≠ k) (q :: rest)
          = q :: List.filter (fun p => p.1 ≠ k) rest by simp [List.filter_cons, h1]]
      by_cases h2 : q.1 ∈ ks
      · rw [show List.filter (fun p => p.1 ∉ ks) (q :: List.filter (fun p => p.1 ≠ k) rest)
            = List.filter (fun p => p.1 ∉ ks) (List.filter (fun p => p.1 ≠ k) rest) by
          simp [List.filter_cons, h2]]
        rw [show List.filter (fun p => p.1 ∉ k :: ks) (q :: rest)
            = List.filter (fun p => p.1 ∉ k :: ks) rest by
          simp [List.filter_cons, List.mem_cons, h2]]
        exact ih
      · rw [show List.filter (fun p => p.1 ∉ ks) (q :: List.filter (fun p => p.1 ≠ k) rest)
            = q :: List.filter (fun p => p.1 ∉ ks) (List.filter (fun p => p.1 ≠ k) rest) by
          simp [List.filter_cons, h2]]
        rw [show List.filter (fun p => p.1 ∉ k :: ks) (q :: rest)
            = q :: List.filter (fun p => p.1 ∉ k :: ks) rest by
          simp [List.filter_cons, List.mem_cons, h1, h2]]
        rw [ih]

theorem minusList_ok_of_keys {α β : Type} (mkErr : β → SynError) :
    ∀ (il : List (String × β)) (tl : List (String × α)),
      (keysOf tl).Nodup → (keysOf il).Nodup →
      (∀ k ∈ keysOf il, k ∈ keysOf tl) →
      minusList mkErr tl il = .ok (tl.filter (fun p => p.1 ∉ keysOf il)) := by
  intro il
  induction il with
  | nil =>
    intro tl _ _ _
    have hf : tl.filter (fun p => p.1 ∉ keysOf ([] : List (String × β))) = tl :=
      List.filter_eq_self.mpr (by intro a _; simp [keysOf])
    rw [hf]
    rfl
  | cons q rest ih =>
    intro tl hndt hndi hsub
    obtain ⟨k, v⟩ := q
    have hk : k ∈ keysOf tl := hsub k (by rw [keysOf_cons]; exact List.mem_cons_self _ _)
    obtain ⟨tl', htl'⟩ : ∃ tl', removePair k tl = some tl' := by
      cases hr : removePair k tl with
      | none => exact absurd hk ((removePair_eq_none k tl).mp hr)
      | some r => exact ⟨r, rfl⟩
    rw [show minusList mkErr tl ((k, v) :: rest) = minusList mkErr tl' rest by
      simp [minusList, htl']]
    rw [keysOf_cons] at hndi
    obtain ⟨hki, hndi'⟩ := List.nodup_cons.mp hndi
    have htl'eq : tl' = tl.filter (fun p => p.1 ≠ k) :=
      removePair_nodup_eq_filter k tl tl' hndt htl'
    have hndt' : (keysOf tl').Nodup := by
      rw [htl'eq, keysOf_filter_ne]
      exact List.Nodup.filter _ hndt
    have hsub' : ∀ k' ∈ keysOf rest, k' ∈ keysOf tl' := by
      intro k' hk'
      have h1 : k' ∈ keysOf tl := hsub k' (by rw [keysOf_cons]; exact List.mem_cons_of_mem _ hk')
      have h2 : k' ≠ k := fun h => hki (h ▸ hk')
      rw [htl'eq, keysOf_filter_ne, List.mem_filter]
      exact ⟨h1, by simpa using h2⟩
    rw [ih tl' hndt' hndi' hsub', htl'eq, filter_keys_cons]
    rfl

theorem minusList_error_shape {α β : Type} (mkErr : β → SynError) :
    ∀ (il : List (String × β)) (tl : List (String × α)),
      (keysOf tl).Nodup → (keysOf il).Nodup →
      ∀ e, minusList mkErr tl il = .error e →
      ∃ k v, (k, v) ∈ il ∧ k ∉ keysOf tl ∧ e = mkErr v := by
  intro il
  induction il with
  | nil => intro tl _ _ e h; simp [minusList] at h
  | cons q rest ih =>
    intro tl hndt hndi e h
    obtain ⟨k, v⟩ := q
    rw [keysOf_cons] at hndi
    obtain ⟨hki, hndi'⟩ := List.nodup_cons.mp hndi
    cases hr : removePair k tl with
    | none =>
      rw [show minusList mkErr tl ((k, v) :: rest) = .error (mkErr v) by
        simp [minusList, hr]] at h
      refine ⟨k, v, List.mem_cons_self _ _, (removePair_eq_none k tl).mp hr, ?_⟩
      injection h with h'
      exact h'.symm
    | some tl' =>
      rw [show minusList mkErr tl ((k, v) :: rest) = minusList mkErr tl' rest by
        simp [minusList, hr]] at h
      have htl'eq := removePair_nodup_eq_filter k tl tl' hndt hr
      have hndt' : (keysOf tl').Nodup := by
        rw [htl'eq, keysOf_filter_ne]
        exact List.Nodup.filter _ hndt
      obtain ⟨k', v', hmem, hnot, he⟩ := ih tl' hndt' hndi' e h
      refine ⟨k', v', List.mem_cons_of_mem _ hmem, ?_, he⟩
      intro hk'
      apply hnot
      rw [htl'eq, keysOf_filter_ne, List.mem_filter]
      refine ⟨hk', ?_⟩
      have h2 : k' ≠ k := by
        intro hh
        apply hki
        rw [← hh]
        have hm := List.mem_map_of_mem Prod.fst hmem
        exact hm
      simpa using h2

theorem minusList_error_of {α β : Type} (mkErr : β → SynError) :
    ∀ (il : List (String × β)) (tl : List (String × α)),
      (∃ k, k ∈ keysOf il ∧ k ∉ keysOf tl) →
      ∃ e, minusList mkErr tl il = .error e := by
  intro il
  induction il with
  | nil =>
    rintro tl ⟨k, hk, _⟩
    simp [keysOf] at hk
  | cons q rest ih =>
    rintro tl ⟨k, hk, hnt⟩
    obtain ⟨k0, v0⟩ := q
    cases hr : removePair k0 tl with
    | none => exact ⟨mkErr v0, by simp [minusList, hr]⟩
    | some tl' =>
      rw [show minusList mkErr tl ((k0, v0) :: rest) = minusList mkErr tl' rest by
        simp [minusList, hr]]
      apply ih
      refine ⟨k, ?_, ?_⟩
      · rw [keysOf_cons] at hk
        rcases List.mem_cons.mp hk with h | h
        · exact ((hnt (h.symm ▸ removePair_some_key_mem k0 tl tl' hr)).elim)
        · exact h
      · intro hmem
        exact hnt (removePair_some_keys k0 tl tl' hr hmem)

theorem minusList_ok_keys_sub {α β : Type} (mkErr : β → SynError) :
    ∀ (il : List (String × β)) (tl r : List (String × α)),
      minusList mkErr tl il = .ok r → ∀ k ∈ keysOf il, k ∈ keysOf tl := by
  intro il
  induction il with
  | nil => intro tl r _ k hk; simp [keysOf] at hk
  | cons q rest ih =>
    intro tl r h k hk
    obtain ⟨k0, v0⟩ := q
    cases hr : removePair k0 tl with
    | none =>
      rw [show minusList mkErr tl ((k0, v0) :: rest) = .error (mkErr v0) by
        simp [minusList, hr]] at h
      cases h
    | some tl' =>
      rw [show minusList mkErr tl ((k0, v0) :: rest) = minusList mkErr tl' rest by
        simp [minusList, hr]] at h
      rw [keysOf_cons] at hk
      rcases List.mem_cons.mp hk with h' | h'
      · exact h'.symm ▸ removePair_some_key_mem k0 tl tl' hr
      · exact removePair_some_keys k0 tl tl' hr (ih tl' r h k h')

/-!  Lemmas about the generation loops and `complete`. -/

theorem completeLoop_eq {σ α β : Type} (gen : σ → α → Except SynError (σ × β))
    (wrap : β → ImplItem) :
    ∀ (l : List (String × α)) (output : ItemImpl) (s : σ),
      completeLoop gen wrap l output s =
        match genLoop gen l s with
        | .error e => .error e
        | .ok (items, s') =>
          .ok ({ output with items := output.items ++ items.map wrap }, s') := by
  intro l
  induction l with
  | nil =>
    intro output s
    simp [completeLoop, genLoop]
  | cons q rest ih =>
    intro output s
    obtain ⟨k, item⟩ := q
    cases hg : gen s item with
    | error e => simp [completeLoop, genLoop, hg]
    | ok p =>
      obtain ⟨s', out⟩ := p
      rw [show completeLoop gen wrap ((k, item) :: rest) output s
          = completeLoop gen wrap rest
              { output with items := output.items ++ [wrap out] } s' by
        simp [completeLoop, hg]]
      rw [ih]
      cases hr : genLoop gen rest s' with
      | error e => simp [genLoop, hg, hr]
      | ok p' =>
        obtain ⟨items', s''⟩ := p'
        simp [genLoop, hg, hr]

theorem complete_eq {σ : Type} (ts : List TraitItem) (b : ItemImpl) (g : Generator σ) (s : σ) :
    complete ts b g s =
      match subtract_items ts b with
      | .error e => .error e
      | .ok m =>
        match genItems g m s with
        | .error e => .error e
        | .ok (l, s') => .ok ({ b with items := b.items ++ l }, s') := by
  cases hsub : subtract_items ts b with
  | error e =>
    simp only [complete, hsub]
    rfl
  | ok m =>
    simp only [complete, hsub, bind, Except.bind]
    rw [completeLoop_eq]
    cases hc : genLoop g.generate_const m.consts s with
    | error e => simp [genItems, hc]
    | ok p =>
      obtain ⟨cs, s1⟩ := p
      simp only []
      rw [completeLoop_eq]
      cases hm : genLoop g.generate_method m.methods s1 with
      | error e => simp [genItems, hc, hm]
      | ok p2 =>
        obtain ⟨ms, s2⟩ := p2
        simp only []
        rw [completeLoop_eq]
        cases ht : genLoop g.generate_type m.types s2 with
        | error e => simp [genItems, hc, hm, ht]
        | ok p3 =>
          obtain ⟨tys, s3⟩ := p3
          simp [genItems, hc, hm, ht, List.append_assoc]

theorem genLoop_total {σ α β : Type} (gen : σ → α → Except SynError (σ × β))
    (aident : α → String) (bident : β → String)
    (hpres : ∀ s x s' y, gen s x = .ok (s', y) → bident y = aident x) :
    ∀ (l : List (String × α)) (s : σ),
      (∀ s' x, x ∈ l.map Prod.snd → isOkE (gen s' x) = true) →
      ∃ out s', genLoop gen l s = .ok (out, s')
        ∧ out.map bident = (l.map Prod.snd).map aident := by
  intro l
  induction l with
  | nil => intro s _; exact ⟨[], s, rfl, rfl⟩
  | cons q rest ih =>
    intro s htot
    obtain ⟨k, x⟩ := q
    have h1 : isOkE (gen s x) = true := htot s x (by simp)
    obtain ⟨p, hp⟩ : ∃ p, gen s x = .ok p := by
      cases hg : gen s x with
      | error e => rw [hg] at h1; simp [isOkE] at h1
      | ok p => exact ⟨p, rfl⟩
    obtain ⟨s', y⟩ := p
    obtain ⟨out, s'', hrec, hmap⟩ := ih s' (fun s0 z hz => htot s0 z (by simp [hz]))
    refine ⟨y :: out, s'', ?_, ?_⟩
    · simp [genLoop, hp, hrec]
    · simp [hmap, hpres s x s' y hp]

theorem genLoop_error_src {σ α β : Type} (gen : σ → α → Except SynError (σ × β)) :
    ∀ (l : List (String × α)) (s : σ) (e : SynError),
      genLoop gen l s = .error e → ∃ s' x, x ∈ l.map Prod.snd ∧ gen s' x = .error e := by
  intro l
  induction l with
  | nil => intro s e h; simp [genLoop] at h
  | cons q rest ih =>
    intro s e h
    obtain ⟨k, x⟩ := q
    cases hg : gen s x with
    | error e' =>
      rw [show genLoop gen ((k, x) :: rest) s = .error e' by simp [genLoop, hg]] at h
      injection h with h'
      exact ⟨s, x, by simp, by rw [hg, h']⟩
    | ok p =>
      obtain ⟨s', y⟩ := p
      cases hr : genLoop gen rest s' with
      | error e' =>
        rw [show genLoop gen ((k, x) :: rest) s = .error e' by simp [genLoop, hg, hr]] at h
        injection h with h'
        obtain ⟨s0, z, hz, hgen⟩ := ih s' e' hr
        exact ⟨s0, z, by simp [hz], by rw [hgen, h']⟩
      | ok p' =>
        rw [show genLoop gen ((k, x) :: rest) s = .ok (y :: p'.1, p'.2) by
          simp [genLoop, hg, hr]] at h
        cases h

theorem genLoop_traced {σ α β : Type} (ev : α → GenCall)
    (gen : σ → α → Except SynError (σ × β)) :
    ∀ (l : List (String × α)) (s : σ) (log : List GenCall),
      genLoop (traced ev gen) l (s, log) =
        match genLoop gen l s with
        | .error e => .error e
        | .ok (out, s') => .ok (out, (s', log ++ (l.map Prod.snd).map ev)) := by
  intro l
  induction l with
  | nil => intro s log; simp [genLoop]
  | cons q rest ih =>
    intro s log
    obtain ⟨k, x⟩ := q
    cases hg : gen s x with
    | error e => simp [genLoop, traced, hg]
    | ok p =>
      obtain ⟨s', y⟩ := p
      cases hr : genLoop gen rest s' with
      | error e =>
        have h2 : genLoop (traced ev gen) rest (s', log ++ [ev x]) = .error e := by
          rw [ih, hr]
        simp [genLoop, traced, hg, h2, hr]
      | ok p' =>
        obtain ⟨out, s''⟩ := p'
        have h2 : genLoop (traced ev gen) rest (s', log ++ [ev x])
            = .ok (out, (s'', (log ++ [ev x]) ++ (rest.map Prod.snd).map ev)) := by
          rw [ih, hr]
        simp [genLoop, traced, hg, h2, hr, List.append_assoc]

/-!  Lemmas about `TraitItemMap.minus` and `subtract_items`. -/

theorem subtract_items_eq (ts : List TraitItem) (b : ItemImpl) :
    subtract_items ts b = (TraitItemMap.new ts).minus (ImplItemMap.new b) := rfl

theorem minus_eq (tm : TraitItemMap) (im : ImplItemMap) :
    tm.minus im =
      match minusConsts tm.consts im.consts with
      | .error e => .error e
      | .ok cs =>
        match minusMethods tm.methods im.methods with
        | .error e => .error e
        | .ok ms =>
          match minusTypes tm.types im.types with
          | .error e => .error e
          | .ok tys => .ok ⟨cs, ms, tys⟩ := by
  cases h1 : minusConsts tm.consts im.consts <;>
    cases h2 : minusMethods tm.methods im.methods <;>
      cases h3 : minusTypes tm.types im.types <;>
        simp [TraitItemMap.minus, h1, h2, h3, bind, Except.bind]

theorem covered_const (ts : List TraitItem) (b : ItemImpl)
    (hcov : implCoveredB ts b = true) (k : String)
    (h : implHasConstB b k = true) : traitHasConstB ts k = true := by
  simp only [implHasConstB, List.any_eq_true] at h
  obtain ⟨item, hmem, hc⟩ := h
  simp only [implCoveredB, List.all_eq_true] at hcov
  have hti := hcov item hmem
  cases item <;> simp_all

theorem covered_method (ts : List TraitItem) (b : ItemImpl)
    (hcov : implCoveredB ts b = true) (k : String)
    (h : implHasMethodB b k = true) : traitHasMethodB ts k = true := by
  simp only [implHasMethodB, List.any_eq_true] at h
  obtain ⟨item, hmem, hc⟩ := h
  simp only [implCoveredB, List.all_eq_true] at hcov
  have hti := hcov item hmem
  cases item <;> simp_all

theorem covered_type (ts : List TraitItem) (b : ItemImpl)
    (hcov : implCoveredB ts b = true) (k : String)
    (h : implHasTypeB b k = true) : traitHasTypeB ts k = true := by
  simp only [implHasTypeB, List.any_eq_true] at h
  obtain ⟨item, hmem, hc⟩ := h
  simp only [implCoveredB, List.all_eq_true] at hcov
  have hti := hcov item hmem
  cases item <;> simp_all

theorem implHasConstB_of_mem (b : ItemImpl) (c : ImplItemConst)
    (h : ImplItem.const c ∈ b.items) : implHasConstB b c.ident = true := by
  simp only [implHasConstB, List.any_eq_true]
  exact ⟨.const c, h, by simp⟩

theorem implHasMethodB_of_mem (b : ItemImpl) (m : ImplItemMethod)
    (h : ImplItem.method m ∈ b.items) : implHasMethodB b m.sig.ident = true := by
  simp only [implHasMethodB, List.any_eq_true]
  exact ⟨.method m, h, by simp⟩

theorem implHasTypeB_of_mem (b : ItemImpl) (t : ImplItemType)
    (h : ImplItem.type t ∈ b.items) : implHasTypeB b t.ident = true := by
  simp only [implHasTypeB, List.any_eq_true]
  exact ⟨.type t, h, by simp⟩

theorem implMap_consts_mem (b : ItemImpl) (k : String) (v : ImplItemConst)
    (h : (k, v) ∈ (ImplItemMap.new b).consts) :
    ImplItem.const v ∈ b.items ∧ v.ident = k := by
  rw [implMap_new_consts] at h
  obtain ⟨item, hmem, hproj⟩ := List.mem_filterMap.mp (mem_buildPairs _ _ h)
  cases item with
  | const c =>
    simp [implConstProj] at hproj
    obtain ⟨hk, hv⟩ := hproj
    subst hv
    exact ⟨hmem, hk⟩
  | method m => simp [implConstProj] at hproj
  | type t => simp [implConstProj] at hproj
  | other n => simp [implConstProj] at hproj

theorem implMap_methods_mem (b : ItemImpl) (k : String) (v : ImplItemMethod)
    (h : (k, v) ∈ (ImplItemMap.new b).methods) :
    ImplItem.method v ∈ b.items ∧ v.sig.ident = k := by
  rw [implMap_new_methods] at h
  obtain ⟨item, hmem, hproj⟩ := List.mem_filterMap.mp (mem_buildPairs _ _ h)
  cases item with
  | const c => simp [implMethodProj] at hproj
  | method m =>
    simp [implMethodProj] at hproj
    obtain ⟨hk, hv⟩ := hproj
    subst hv
    exact ⟨hmem, hk⟩
  | type t => simp [implMethodProj] at hproj
  | other n => simp [implMethodProj] at hproj

theorem implMap_types_mem (b : ItemImpl) (k : String) (v : ImplItemType)
    (h : (k, v) ∈ (ImplItemMap.new b).types) :
    ImplItem.type v ∈ b.items ∧ v.ident = k := by
  rw [implMap_new_types] at h
  obtain ⟨item, hmem, hproj⟩ := List.mem_filterMap.mp (mem_buildPairs _ _ h)
  cases item with
  | const c => simp [implTypeProj] at hproj
  | method m => simp [implTypeProj] at hproj
  | type t =>
    simp [implTypeProj] at hproj
    obtain ⟨hk, hv⟩ := hproj
    subst hv
    exact ⟨hmem, hk⟩
  | other n => simp [implTypeProj] at hproj

theorem subtract_ok_covered (ts : List TraitItem) (b : ItemImpl)
    (hcov : implCoveredB ts b = true) :
    subtract_items ts b = .ok
      ⟨(TraitItemMap.new ts).consts.filter
          (fun p => p.1 ∉ keysOf (ImplItemMap.new b).consts),
        (TraitItemMap.new ts).methods.filter
          (fun p => p.1 ∉ keysOf (ImplItemMap.new b).methods),
        (TraitItemMap.new ts).types.filter
          (fun p => p.1 ∉ keysOf (ImplItemMap.new b).types)⟩ := by
  have hc := minusList_ok_of_keys constErr (ImplItemMap.new b).consts
    (TraitItemMap.new ts).consts (traitMap_keys_nodup_consts ts) (implMap_keys_nodup_consts b)
    (by
      intro k hk
      rw [mem_keys_implMap_consts] at hk
      rw [mem_keys_traitMap_consts]
      exact covered_const ts b hcov k hk)
  have hm := minusList_ok_of_keys methodErr (ImplItemMap.new b).methods
    (TraitItemMap.new ts).methods (traitMap_keys_nodup_methods ts) (implMap_keys_nodup_methods b)
    (by
      intro k hk
      rw [mem_keys_implMap_methods] at hk
      rw [mem_keys_traitMap_methods]
      exact covered_method ts b hcov k hk)
  have ht := minusList_ok_of_keys typeErr (ImplItemMap.new b).types
    (TraitItemMap.new ts).types (traitMap_keys_nodup_types ts) (implMap_keys_nodup_types b)
    (by
      intro k hk
      rw [mem_keys_implMap_types] at hk
      rw [mem_keys_traitMap_types]
      exact covered_type ts b hcov k hk)
  rw [subtract_items_eq, minus_eq]
  rw [show minusConsts (TraitItemMap.new ts).consts (ImplItemMap.new b).consts
      = minusList constErr (TraitItemMap.new ts).consts (ImplItemMap.new b).consts from rfl, hc]
  rw [show minusMethods (TraitItemMap.new ts).methods (ImplItemMap.new b).methods
      = minusList methodErr (TraitItemMap.new ts).methods (ImplItemMap.new b).methods from rfl, hm]
  rw [show minusTypes (TraitItemMap.new ts).types (ImplItemMap.new b).types
      = minusList typeErr (TraitItemMap.new ts).types (ImplItemMap.new b).types from rfl, ht]

theorem subtract_error_shape (ts : List TraitItem) (b : ItemImpl) (e : SynError)
    (h : subtract_items ts b = .error e) :
    ∃ sp, e.span = some sp ∧ e.message = matchMessage sp.kind
      ∧ sp.item ∈ b.items ∧ traitHasKindIdentB ts sp.kind sp.ident = false := by
  rw [subtract_items_eq, minus_eq] at h
  cases h1 : minusConsts (TraitItemMap.new ts).consts (ImplItemMap.new b).consts with
  | error e1 =>
    rw [h1] at h
    injection h with he
    subst he
    obtain ⟨k, v, hmem, hnk, hev⟩ := minusList_error_shape constErr _ _
      (traitMap_keys_nodup_consts ts) (implMap_keys_nodup_consts b) e1 h1
    obtain ⟨hitem, hid⟩ := implMap_consts_mem b k v hmem
    refine ⟨.const v, by simp [hev, constErr], by simp [hev, constErr, matchMessage, Spanned.kind], ?_, ?_⟩
    · simpa [Spanned.item] using hitem
    · simp only [Spanned.kind, Spanned.ident, traitHasKindIdentB]
      rw [hid]
      by_contra hcon
      rw [Bool.not_eq_false] at hcon
      rw [← mem_keys_traitMap_consts] at hcon
      exact hnk hcon
  | ok cs =>
    rw [h1] at h
    cases h2 : minusMethods (TraitItemMap.new ts).methods (ImplItemMap.new b).methods with
    | error e2 =>
      rw [h2] at h
      injection h with he
      subst he
      obtain ⟨k, v, hmem, hnk, hev⟩ := minusList_error_shape methodErr _ _
        (traitMap_keys_nodup_methods ts) (implMap_keys_nodup_methods b) e2 h2
      obtain ⟨hitem, hid⟩ := implMap_methods_mem b k v hmem
      refine ⟨.method v, by simp [hev, methodErr], by simp [hev, methodErr, matchMessage, Spanned.kind], ?_, ?_⟩
      · simpa [Spanned.item] using hitem
      · simp only [Spanned.kind, Spanned.ident, traitHasKindIdentB]
        rw [hid]
        by_contra hcon
        rw [Bool.not_eq_false] at hcon
        rw [← mem_keys_traitMap_methods] at hcon
        exact hnk hcon
    | ok ms =>
      rw [h2] at h
      cases h3 : minusTypes (TraitItemMap.new ts).types (ImplItemMap.new b).types with
      | error e3 =>
        rw [h3] at h
        injection h with he
        subst he
        obtain ⟨k, v, hmem, hnk, hev⟩ := minusList_error_shape typeErr _ _
          (traitMap_keys_nodup_types ts) (implMap_keys_nodup_types b) e3 h3
        obtain ⟨hitem, hid⟩ := implMap_types_mem b k v hmem
        refine ⟨.type v, by simp [hev, typeErr], by simp [hev, typeErr, matchMessage, Spanned.kind], ?_, ?_⟩
        · simpa [Spanned.item] using hitem
        · simp only [Spanned.kind, Spanned.ident, traitHasKindIdentB]
          rw [hid]
          by_contra hcon
          rw [Bool.not_eq_false] at hcon
          rw [← mem_keys_traitMap_types] at hcon
          exact hnk hcon
      | ok tys =>
        rw [h3] at h
        cases h

theorem subtract_ok_implies_covered (ts : List TraitItem) (b : ItemImpl) (m : TraitItemMap)
    (h : subtract_items ts b = .ok m) : implCoveredB ts b = true := by
  rw [subtract_items_eq, minus_eq] at h
  cases h1 : minusConsts (TraitItemMap.new ts).consts (ImplItemMap.new b).consts with
  | error e1 => rw [h1] at h; cases h
  | ok cs =>
    rw [h1] at h
    cases h2 : minusMethods (TraitItemMap.new ts).methods (ImplItemMap.new b).methods with
    | error e2 => rw [h2] at h; cases h
    | ok ms =>
      rw [h2] at h
      cases h3 : minusTypes (TraitItemMap.new ts).types (ImplItemMap.new b).types with
      | error e3 => rw [h3] at h; cases h
      | ok tys =>
        have hkc := minusList_ok_keys_sub constErr _ _ _ h1
        have hkm := minusList_ok_keys_sub methodErr _ _ _ h2
        have hkt := minusList_ok_keys_sub typeErr _ _ _ h3
        simp only [implCoveredB, List.all_eq_true]
        intro item hmem
        cases item with
        | const c =>
          have h4 : c.ident ∈ keysOf (ImplItemMap.new b).consts := by
            rw [mem_keys_implMap_consts]
            exact implHasConstB_of_mem b c hmem
          have h5 := hkc c.ident h4
          rw [mem_keys_traitMap_consts] at h5
          simpa using h5
        | method mm =>
          have h4 : mm.sig.ident ∈ keysOf (ImplItemMap.new b).methods := by
            rw [mem_keys_implMap_methods]
            exact implHasMethodB_of_mem b mm hmem
          have h5 := hkm mm.sig.ident h4
          rw [mem_keys_traitMap_methods] at h5
          simpa using h5
        | type t =>
          have h4 : t.ident ∈ keysOf (ImplItemMap.new b).types := by
            rw [mem_keys_implMap_types]
            exact implHasTypeB_of_mem b t hmem
          have h5 := hkt t.ident h4
          rw [mem_keys_traitMap_types] at h5
          simpa using h5
        | other n => simp

theorem subtract_error_of_uncovered (ts : List TraitItem) (b : ItemImpl)
    (hcov : implCoveredB ts b = false) :
    ∃ e, subtract_items ts b = .error e := by
  cases hs : subtract_items ts b with
  | error e => exact ⟨e, rfl⟩
  | ok m =>
    rw [subtract_ok_implies_covered ts b m hs] at hcov
    cases hcov

/-!  Further helpers for the claims. -/

theorem filter_ext_bool {α : Type} (p q : α → Bool) (h : ∀ a, p a = q a) :
    ∀ l : List α, l.filter p = l.filter q := by
  intro l
  induction l with
  | nil => rfl
  | cons a rest ih => rw [List.filter_cons, List.filter_cons, h a, ih]

theorem tcovered_const (ts : List TraitItem) (b : ItemImpl)
    (hcov : traitCoveredB ts b = true) (k : String)
    (h : traitHasConstB ts k = true) : implHasConstB b k = true := by
  simp only [traitHasConstB, List.any_eq_true] at h
  obtain ⟨item, hmem, hc⟩ := h
  simp only [traitCoveredB, List.all_eq_true] at hcov
  have hti := hcov item hmem
  cases item <;> simp_all

theorem tcovered_method (ts : List TraitItem) (b : ItemImpl)
    (hcov : traitCoveredB ts b = true) (k : String)
    (h : traitHasMethodB ts k = true) : implHasMethodB b k = true := by
  simp only [traitHasMethodB, List.any_eq_true] at h
  obtain ⟨item, hmem, hc⟩ := h
  simp only [traitCoveredB, List.all_eq_true] at hcov
  have hti := hcov item hmem
  cases item <;> simp_all

theorem tcovered_type (ts : List TraitItem) (b : ItemImpl)
    (hcov : traitCoveredB ts b = true) (k : String)
    (h : traitHasTypeB ts k = true) : implHasTypeB b k = true := by
  simp only [traitHasTypeB, List.any_eq_true] at h
  obtain ⟨item, hmem, hc⟩ := h
  simp only [traitCoveredB, List.all_eq_true] at hcov
  have hti := hcov item hmem
  cases item <;> simp_all

theorem constsCovered_const (ts : List TraitItem) (b : ItemImpl)
    (hcov : implConstsCoveredB ts b = true) (k : String)
    (h : implHasConstB b k = true) : traitHasConstB ts k = true := by
  simp only [implHasConstB, List.any_eq_true] at h
  obtain ⟨item, hmem, hc⟩ := h
  simp only [implConstsCoveredB, List.all_eq_true] at hcov
  have hti := hcov item hmem
  cases item <;> simp_all

theorem trait_mem_keys_consts (ts : List TraitItem) (p : String × TraitItemConst)
    (h : p ∈ (TraitItemMap.new ts).consts) : traitHasConstB ts p.1 = true := by
  rw [← mem_keys_traitMap_consts]
  exact List.mem_map_of_mem Prod.fst h

theorem trait_mem_keys_methods (ts : List TraitItem) (p : String × TraitItemMethod)
    (h : p ∈ (TraitItemMap.new ts).methods) : traitHasMethodB ts p.1 = true := by
  rw [← mem_keys_traitMap_methods]
  exact List.mem_map_of_mem Prod.fst h

theorem trait_mem_keys_types (ts : List TraitItem) (p : String × TraitItemType)
    (h : p ∈ (TraitItemMap.new ts).types) : traitHasTypeB ts p.1 = true := by
  rw [← mem_keys_traitMap_types]
  exact List.mem_map_of_mem Prod.fst h

theorem genItems_eq {σ : Type} (g : Generator σ) (m : TraitItemMap) (s : σ) :
    genItems g m s =
      match genLoop g.generate_const m.consts s with
      | .error e => .error e
      | .ok (cs, s1) =>
        match genLoop g.generate_method m.methods s1 with
        | .error e => .error e
        | .ok (ms, s2) =>
          match genLoop g.generate_type m.types s2 with
          | .error e => .error e
          | .ok (tys, s3) =>
            .ok (cs.map ImplItem.const ++ ms.map ImplItem.method ++ tys.map ImplItem.type, s3) :=
  rfl

theorem genItems_traced {σ : Type} (g : Generator σ) (m : TraitItemMap) (s : σ)
    (log : List GenCall) :
    genItems (withTrace g) m (s, log) =
      match genItems g m s with
      | .error e => .error e
      | .ok (l, s') => .ok (l, (s', log ++ traceOf m)) := by
  rw [genItems_eq, genItems_eq]
  rw [show (withTrace g).generate_const = traced (fun item => GenCall.const item.ident)
      g.generate_const from rfl]
  rw [show (withTrace g).generate_method = traced (fun item => GenCall.method item.sig.ident)
      g.generate_method from rfl]
  rw [show (withTrace g).generate_type = traced (fun item => GenCall.type item.ident)
      g.generate_type from rfl]
  rw [genLoop_traced]
  cases hc : genLoop g.generate_const m.consts s with
  | error e => rfl
  | ok p =>
    obtain ⟨cs, s1⟩ := p
    simp only []
    rw [genLoop_traced]
    cases hm : genLoop g.generate_method m.methods s1 with
    | error e => rfl
    | ok p2 =>
      obtain ⟨ms, s2⟩ := p2
      simp only []
      rw [genLoop_traced]
      cases ht : genLoop g.generate_type m.types s2 with
      | error e => rfl
      | ok p3 =>
        obtain ⟨tys, s3⟩ := p3
        simp only [traceOf]
        rw [show m.consts.map (fun p => GenCall.const p.2.ident)
            = (m.consts.map Prod.snd).map (fun c => GenCall.const c.ident) by
          rw [List.map_map]; rfl]
        rw [show m.methods.map (fun p => GenCall.method p.2.sig.ident)
            = (m.methods.map Prod.snd).map (fun mm => GenCall.method mm.sig.ident) by
          rw [List.map_map]; rfl]
        rw [show m.types.map (fun p => GenCall.type p.2.ident)
            = (m.types.map Prod.snd).map (fun t => GenCall.type t.ident) by
          rw [List.map_map]; rfl]
        simp [List.append_assoc]

theorem exGen_preserves : GenPreservesIdent exGen := by
  refine ⟨?_, ?_, ?_⟩ <;>
    (intro s x s' o h
     simp [exGen] at h
     rw [← h])

theorem exGen_total (m : TraitItemMap) : GenTotalOn exGen m := by
  refine ⟨?_, ?_, ?_⟩ <;> (intro s x _; simp [exGen, isOkE])

theorem mem_traitConstProj_ident (ts : List TraitItem) (p : String × TraitItemConst)
    (h : p ∈ ts.filterMap traitConstProj) : p.2.ident = p.1 := by
  obtain ⟨item, _, hproj⟩ := List.mem_filterMap.mp h
  cases item <;> simp [traitConstProj] at hproj
  rw [← hproj]

theorem mem_traitMethodProj_ident (ts : List TraitItem) (p : String × TraitItemMethod)
    (h : p ∈ ts.filterMap traitMethodProj) : p.2.sig.ident = p.1 := by
  obtain ⟨item, _, hproj⟩ := List.mem_filterMap.mp h
  cases item <;> simp [traitMethodProj] at hproj
  rw [← hproj]

theorem mem_traitTypeProj_ident (ts : List TraitItem) (p : String × TraitItemType)
    (h : p ∈ ts.filterMap traitTypeProj) : p.2.ident = p.1 := by
  obtain ⟨item, _, hproj⟩ := List.mem_filterMap.mp h
  cases item <;> simp [traitTypeProj] at hproj
  rw [← hproj]

theorem genItems_error_src {σ : Type} (g : Generator σ) (m : TraitItemMap) (s : σ)
    (e : SynError) (h : genItems g m s = .error e) :
    (∃ s' c, c ∈ m.consts.map Prod.snd ∧ g.generate_const s' c = .error e)
      ∨ (∃ s' mm, mm ∈ m.methods.map Prod.snd ∧ g.generate_method s' mm = .error e)
      ∨ (∃ s' t, t ∈ m.types.map Prod.snd ∧ g.generate_type s' t = .error e) := by
  rw [genItems_eq] at h
  cases hc : genLoop g.generate_const m.consts s with
  | error e1 =>
    simp only [hc, Except.error.injEq] at h
    subst h
    obtain ⟨s', x, hx, hgc⟩ := genLoop_error_src g.generate_const m.consts s e1 hc
    exact Or.inl ⟨s', x, hx, hgc⟩
  | ok p1 =>
    obtain ⟨cs, s1⟩ := p1
    simp only [hc] at h
    cases hm2 : genLoop g.generate_method m.methods s1 with
    | error e2 =>
      simp only [hm2, Except.error.injEq] at h
      subst h
      obtain ⟨s', x, hx, hgm⟩ := genLoop_error_src g.generate_method m.methods s1 e2 hm2
      exact Or.inr (Or.inl ⟨s', x, hx, hgm⟩)
    | ok p2 =>
      obtain ⟨ms, s2⟩ := p2
      simp only [hm2] at h
      cases ht2 : genLoop g.generate_type m.types s2 with
      | error e3 =>
        simp only [ht2, Except.error.injEq] at h
        subst h
        obtain ⟨s', x, hx, hgt⟩ := genLoop_error_src g.generate_type m.types s2 e3 ht2
        exact Or.inr (Or.inr ⟨s', x, hx, hgt⟩)
      | ok p3 =>
        simp only [ht2] at h
        cases h

theorem genItems_ok_of_loops {σ : Type} (g : Generator σ) (m : TraitItemMap) (s : σ)
    (cs : List ImplItemConst) (s1 : σ) (ms : List ImplItemMethod) (s2 : σ)
    (tys : List ImplItemType) (s3 : σ)
    (hc : genLoop g.generate_const m.consts s = .ok (cs, s1))
    (hm : genLoop g.generate_method m.methods s1 = .ok (ms, s2))
    (ht : genLoop g.generate_type m.types s2 = .ok (tys, s3)) :
    genItems g m s
      = .ok (cs.map ImplItem.const ++ ms.map ImplItem.method ++ tys.map ImplItem.type, s3) := by
  rw [genItems_eq]
  simp [hc, hm, ht]

theorem map_eq_of_forall {α β : Type} (f g : α → β) :
    ∀ l : List α, (∀ a ∈ l, f a = g a) → l.map f = l.map g := by
  intro l
  induction l with
  | nil => intro _; rfl
  | cons a rest ih =>
    intro h
    rw [List.map_cons, List.map_cons, h a (List.mem_cons_self a rest),
      ih (fun x hx => h x (List.mem_cons_of_mem _ hx))]

theorem constProj_map_const (cs : List ImplItemConst) :
    (cs.map ImplItem.const).filterMap implConstProj = cs.map (fun c => (c.ident, c)) := by
  induction cs <;> simp_all [implConstProj]

theorem constProj_map_method (ms : List ImplItemMethod) :
    (ms.map ImplItem.method).filterMap implConstProj = [] := by
  induction ms <;> simp_all [implConstProj]

theorem constProj_map_type (tys : List ImplItemType) :
    (tys.map ImplItem.type).filterMap implConstProj = [] := by
  induction tys <;> simp_all [implConstProj]

theorem methodProj_map_const (cs : List ImplItemConst) :
    (cs.map ImplItem.const).filterMap implMethodProj = [] := by
  induction cs <;> simp_all [implMethodProj]

theorem methodProj_map_method (ms : List ImplItemMethod) :
    (ms.map ImplItem.method).filterMap implMethodProj = ms.map (fun m => (m.sig.ident, m)) := by
  induction ms <;> simp_all [implMethodProj]

theorem methodProj_map_type (tys : List ImplItemType) :
    (tys.map ImplItem.type).filterMap implMethodProj = [] := by
  induction tys <;> simp_all [implMethodProj]

theorem typeProj_map_const (cs : List ImplItemConst) :
    (cs.map ImplItem.const).filterMap implTypeProj = [] := by
  induction cs <;> simp_all [implTypeProj]

theorem typeProj_map_method (ms : List ImplItemMethod) :
    (ms.map ImplItem.method).filterMap implTypeProj = [] := by
  induction ms <;> simp_all [implTypeProj]

theorem typeProj_map_type (tys : List ImplItemType) :
    (tys.map ImplItem.type).filterMap implTypeProj = tys.map (fun t => (t.ident, t)) := by
  induction tys <;> simp_all [implTypeProj]

/-!  Claim theorems. -/

/-- C10: the first `Once::set` on an empty slot succeeds and stores the
value and span; setting a second time returns the error "Argument cannot
be set twice", and after the failed call the slot holds the newly
supplied value and span rather than the originally stored pair (the
`Option::replace` runs before the check). -/
theorem C10_once_set_twice {T : Type} (v1 v2 : T) (s1 s2 : Span)
    (join : Span → Span → Option Span) :
    Once.set (Once.default T) v1 s1 join = (⟨some (s1, v1)⟩, .ok ())
      ∧ Once.set ⟨some (s1, v1)⟩ v2 s2 join
          = (⟨some (s2, v2)⟩,
             .error ⟨(join s2 s1).getD s2, "Argument cannot be set twice"⟩) :=
  ⟨rfl, rfl⟩

/-- C8: index construction performs no validation and cannot fail (both
`new`s are total functions); in every bucket of both indexes the binding
of an identifier is the last item of that kind carrying it (later
occurrences overwrite earlier ones), and items of any other kind are
ignored by both indexers. -/
theorem C8_index_last_wins :
    (∀ (ts : List TraitItem) (i : String),
        lookupPair i (TraitItemMap.new ts).consts = lastPair i (ts.filterMap traitConstProj)
          ∧ lookupPair i (TraitItemMap.new ts).methods = lastPair i (ts.filterMap traitMethodProj)
          ∧ lookupPair i (TraitItemMap.new ts).types = lastPair i (ts.filterMap traitTypeProj))
      ∧ (∀ (b : ItemImpl) (i : String),
        lookupPair i (ImplItemMap.new b).consts = lastPair i (b.items.filterMap implConstProj)
          ∧ lookupPair i (ImplItemMap.new b).methods
              = lastPair i (b.items.filterMap implMethodProj)
          ∧ lookupPair i (ImplItemMap.new b).types = lastPair i (b.items.filterMap implTypeProj))
      ∧ (∀ (ts1 ts2 : List TraitItem) (n : Nat),
          TraitItemMap.new (ts1 ++ TraitItem.other n :: ts2) = TraitItemMap.new (ts1 ++ ts2))
      ∧ (∀ (a g tp st : Nat) (il1 il2 : List ImplItem) (n : Nat),
          ImplItemMap.new ⟨a, g, tp, st, il1 ++ ImplItem.other n :: il2⟩
            = ImplItemMap.new ⟨a, g, tp, st, il1 ++ il2⟩) := by
  refine ⟨?_, ?_, ?_, ?_⟩
  · intro ts i
    exact ⟨by rw [traitMap_new_consts, lookupPair_buildPairs],
      by rw [traitMap_new_methods, lookupPair_buildPairs],
      by rw [traitMap_new_types, lookupPair_buildPairs]⟩
  · intro b i
    exact ⟨by rw [implMap_new_consts, lookupPair_buildPairs],
      by rw [implMap_new_methods, lookupPair_buildPairs],
      by rw [implMap_new_types, lookupPair_buildPairs]⟩
  · intro ts1 ts2 n
    simp [TraitItemMap.new, List.foldl_append, List.foldl_cons, traitMapStep]
  · intro a g tp st il1 il2 n
    simp [ImplItemMap.new, List.foldl_append, List.foldl_cons, implMapStep]

/-- C9: `complete` is a pure function of its inputs (so the trait-item
list and the impl block are never mutated), and on success the returned
block keeps the original block's metadata and its items in their original
order, followed only by the newly synthesized items. -/
theorem C9_complete_frame {σ : Type} (ts : List TraitItem) (b : ItemImpl)
    (g : Generator σ) (s : σ) (out : ItemImpl) (s' : σ)
    (h : complete ts b g s = .ok (out, s')) :
    out.attrs = b.attrs ∧ out.generics = b.generics ∧ out.trait_path = b.trait_path
      ∧ out.self_ty = b.self_ty ∧ ∃ gen, out.items = b.items ++ gen := by
  rw [complete_eq] at h
  cases hsub : subtract_items ts b with
  | error e => simp [hsub] at h
  | ok m =>
    simp only [hsub] at h
    cases hg : genItems g m s with
    | error e => simp [hg] at h
    | ok p =>
      obtain ⟨l, s''⟩ := p
      simp only [hg, Except.ok.injEq, Prod.mk.injEq] at h
      obtain ⟨h3, h4⟩ := h
      rw [← h3]
      exact ⟨rfl, rfl, rfl, rfl, l, rfl⟩

/-- Witness for C9 at a concrete input. -/
theorem C9_witness :
    (ItemImpl.mk 0 0 0 0 [ImplItem.method ⟨⟨"f", 0⟩, 0⟩]).attrs = (ItemImpl.mk 0 0 0 0 [ImplItem.method ⟨⟨"f", 0⟩, 0⟩]).attrs
      ∧ (ItemImpl.mk 0 0 0 0 [ImplItem.method ⟨⟨"f", 0⟩, 0⟩]).generics = (ItemImpl.mk 0 0 0 0 [ImplItem.method ⟨⟨"f", 0⟩, 0⟩]).generics
      ∧ (ItemImpl.mk 0 0 0 0 [ImplItem.method ⟨⟨"f", 0⟩, 0⟩]).trait_path = (ItemImpl.mk 0 0 0 0 [ImplItem.method ⟨⟨"f", 0⟩, 0⟩]).trait_path
      ∧ (ItemImpl.mk 0 0 0 0 [ImplItem.method ⟨⟨"f", 0⟩, 0⟩]).self_ty = (ItemImpl.mk 0 0 0 0 [ImplItem.method ⟨⟨"f", 0⟩, 0⟩]).self_ty
      ∧ ∃ gen, (ItemImpl.mk 0 0 0 0 [ImplItem.method ⟨⟨"f", 0⟩, 0⟩]).items
          = (ItemImpl.mk 0 0 0 0 [ImplItem.method ⟨⟨"f", 0⟩, 0⟩]).items ++ gen :=
  C9_complete_frame [TraitItem.method ⟨⟨"f", 0⟩, 0⟩] (ItemImpl.mk 0 0 0 0 [ImplItem.method ⟨⟨"f", 0⟩, 0⟩])
    exGen () (ItemImpl.mk 0 0 0 0 [ImplItem.method ⟨⟨"f", 0⟩, 0⟩]) () rfl

/-- C4: when every trait const, method and type item has an impl item of
matching kind and identifier and conversely, `complete` succeeds and
returns the impl block unchanged with the generator state untouched, for
every generator whatsoever: no generator operation is invoked (the result
does not depend on the generator and its state never advances). -/
theorem C4_noop_completion {σ : Type} (ts : List TraitItem) (b : ItemImpl)
    (hmut : mutualCoverB ts b = true) (g : Generator σ) (s : σ) :
    complete ts b g s = .ok (b, s) := by
  obtain ⟨hcov, htc⟩ : implCoveredB ts b = true ∧ traitCoveredB ts b = true := by
    simpa [mutualCoverB, Bool.and_eq_true] using hmut
  have hcnil : (TraitItemMap.new ts).consts.filter
      (fun p => p.1 ∉ keysOf (ImplItemMap.new b).consts) = [] := by
    rw [List.filter_eq_nil]
    intro p hp
    simp only [decide_not, Bool.not_eq_true', decide_eq_false_iff_not, not_not]
    rw [mem_keys_implMap_consts]
    exact tcovered_const ts b htc p.1 (trait_mem_keys_consts ts p hp)
  have hmnil : (TraitItemMap.new ts).methods.filter
      (fun p => p.1 ∉ keysOf (ImplItemMap.new b).methods) = [] := by
    rw [List.filter_eq_nil]
    intro p hp
    simp only [decide_not, Bool.not_eq_true', decide_eq_false_iff_not, not_not]
    rw [mem_keys_implMap_methods]
    exact tcovered_method ts b htc p.1 (trait_mem_keys_methods ts p hp)
  have htnil : (TraitItemMap.new ts).types.filter
      (fun p => p.1 ∉ keysOf (ImplItemMap.new b).types) = [] := by
    rw [List.filter_eq_nil]
    intro p hp
    simp only [decide_not, Bool.not_eq_true', decide_eq_false_iff_not, not_not]
    rw [mem_keys_implMap_types]
    exact tcovered_type ts b htc p.1 (trait_mem_keys_types ts p hp)
  rw [complete_eq, subtract_ok_covered ts b hcov, hcnil, hmnil, htnil]
  simp [genItems, genLoop]

/-- Witness for C4 at a concrete input. -/
theorem C4_witness :
    complete [TraitItem.const ⟨"N", 0⟩] (ItemImpl.mk 0 0 0 0 [ImplItem.const ⟨"N", 5⟩]) exGen ()
      = .ok (ItemImpl.mk 0 0 0 0 [ImplItem.const ⟨"N", 5⟩], ()) :=
  C4_noop_completion [TraitItem.const ⟨"N", 0⟩] (ItemImpl.mk 0 0 0 0 [ImplItem.const ⟨"N", 5⟩])
    rfl exGen ()

/-- C2: an impl item of one of the three kinds whose identifier the trait
does not declare for that kind makes `complete` fail, for every
generator, with the Differ's spanned `MatchError`: the error's span
carries an offending impl item of the block whose kind and identifier
have no trait counterpart, its message names that kind, and the unknown
item is never silently accepted (the embedding is pure, so the caller's
block is unchanged). -/
theorem C2_unknown_item_rejected {σ : Type} (ts : List TraitItem) (b : ItemImpl)
    (hcov : implCoveredB ts b = false) (g : Generator σ) (s : σ) :
    ∃ e sp, complete ts b g s = .error e ∧ subtract_items ts b = .error e
      ∧ e.span = some sp ∧ sp.item ∈ b.items
      ∧ traitHasKindIdentB ts sp.kind sp.ident = false
      ∧ e.message = matchMessage sp.kind := by
  obtain ⟨e, he⟩ := subtract_error_of_uncovered ts b hcov
  obtain ⟨sp, h1, h2, h3, h4⟩ := subtract_error_shape ts b e he
  refine ⟨e, sp, ?_, he, h1, h3, h4, h2⟩
  rw [complete_eq, he]

/-- Witness for C2 at a concrete input. -/
theorem C2_witness :
    ∃ e sp, complete [] (ItemImpl.mk 0 0 0 0 [ImplItem.const ⟨"x", 0⟩]) exGen () = .error e
      ∧ subtract_items [] (ItemImpl.mk 0 0 0 0 [ImplItem.const ⟨"x", 0⟩]) = .error e
      ∧ e.span = some sp ∧ sp.item ∈ (ItemImpl.mk 0 0 0 0 [ImplItem.const ⟨"x", 0⟩]).items
      ∧ traitHasKindIdentB [] sp.kind sp.ident = false
      ∧ e.message = matchMessage sp.kind :=
  C2_unknown_item_rejected [] (ItemImpl.mk 0 0 0 0 [ImplItem.const ⟨"x", 0⟩]) rfl exGen ()

/-- C5 counterexample: the claim's scenario (impl supplies method `x`,
trait declares no method `x` but a constant `x`) does not always trigger
the no-associated-method error: when the impl also contains a constant
the trait lacks, the Differ's const pass runs first and fails fast, so
the reported error is the constant error, not the method error. -/
theorem C5_counterexample :
    implHasMethodB
        (ItemImpl.mk 0 0 0 0 [ImplItem.const ⟨"z", 0⟩, ImplItem.method ⟨⟨"x", 0⟩, 0⟩]) "x" = true
      ∧ traitHasMethodB [TraitItem.const ⟨"x", 0⟩] "x" = false
      ∧ traitHasConstB [TraitItem.const ⟨"x", 0⟩] "x" = true
      ∧ complete [TraitItem.const ⟨"x", 0⟩]
          (ItemImpl.mk 0 0 0 0 [ImplItem.const ⟨"z", 0⟩, ImplItem.method ⟨⟨"x", 0⟩, 0⟩]) exGen ()
          = .error (constErr ⟨"z", 0⟩)
      ∧ (constErr ⟨"z", 0⟩).message ≠ matchMessage ItemKind.method :=
  ⟨rfl, rfl, rfl, rfl, by decide⟩

/-- C5 (amended): matching is per kind and kinds are never conflated,
symmetrically for every pair of distinct kinds: an impl item of any kind
`k` named `x` is never satisfied by a trait item of a different kind
`k'` named `x` — if the trait declares no kind-`k` item `x`, `complete`
never succeeds for any generator, even though the trait declares a
kind-`k'` item named `x`.  When `k` is method and every impl constant is
declared by the trait (the Differ checks constants before methods and
fails fast), the failure is precisely the method-kind MatchError,
pointing at an impl method the trait does not declare. -/
theorem C5_kind_isolation (ts : List TraitItem) (b : ItemImpl) (x : String)
    (k k' : ItemKind) (hkk : k ≠ k')
    (him : implHasKindIdentB b k x = true)
    (hno : traitHasKindIdentB ts k x = false)
    (hother : traitHasKindIdentB ts k' x = true) :
    (∀ (σ : Type) (g : Generator σ) (s : σ) (r : ItemImpl × σ), complete ts b g s ≠ .ok r)
      ∧ (k = ItemKind.method → implConstsCoveredB ts b = true →
          ∃ e v, subtract_items ts b = .error e ∧ e = methodErr v
            ∧ ImplItem.method v ∈ b.items ∧ traitHasMethodB ts v.sig.ident = false
            ∧ ∀ (σ : Type) (g : Generator σ) (s : σ), complete ts b g s = .error e) := by
  constructor
  · intro σ g s r hok
    rw [complete_eq] at hok
    cases hsub : subtract_items ts b with
    | error e => simp [hsub] at hok
    | ok m =>
      have hcov := subtract_ok_implies_covered ts b m hsub
      cases k with
      | const =>
        have hno2 : traitHasConstB ts x = false := hno
        rw [covered_const ts b hcov x him] at hno2
        cases hno2
      | method =>
        have hno2 : traitHasMethodB ts x = false := hno
        rw [covered_method ts b hcov x him] at hno2
        cases hno2
      | type =>
        have hno2 : traitHasTypeB ts x = false := hno
        rw [covered_type ts b hcov x him] at hno2
        cases hno2
  · intro hk hcc
    subst hk
    have hm : implHasMethodB b x = true := him
    have hnom : traitHasMethodB ts x = false := hno
    have h1 : minusConsts (TraitItemMap.new ts).consts (ImplItemMap.new b).consts
        = .ok ((TraitItemMap.new ts).consts.filter
            (fun p => p.1 ∉ keysOf (ImplItemMap.new b).consts)) :=
      minusList_ok_of_keys constErr (ImplItemMap.new b).consts (TraitItemMap.new ts).consts
        (traitMap_keys_nodup_consts ts) (implMap_keys_nodup_consts b)
        (by
          intro kx hkx
          rw [mem_keys_implMap_consts] at hkx
          rw [mem_keys_traitMap_consts]
          exact constsCovered_const ts b hcc kx hkx)
    obtain ⟨e, h2⟩ : ∃ e, minusMethods (TraitItemMap.new ts).methods
        (ImplItemMap.new b).methods = .error e :=
      minusList_error_of methodErr (ImplItemMap.new b).methods (TraitItemMap.new ts).methods
        ⟨x, by rw [mem_keys_implMap_methods]; exact hm,
          by rw [mem_keys_traitMap_methods, hnom]; simp⟩
    obtain ⟨kk, v, hmem, hnk, hev⟩ := minusList_error_shape methodErr _ _
      (traitMap_keys_nodup_methods ts) (implMap_keys_nodup_methods b) e h2
    obtain ⟨hitem, hid⟩ := implMap_methods_mem b kk v hmem
    have hsub : subtract_items ts b = .error e := by
      rw [subtract_items_eq, minus_eq, h1, h2]
    refine ⟨e, v, hsub, hev, hitem, ?_, ?_⟩
    · rw [hid]
      by_contra hcon
      rw [Bool.not_eq_false] at hcon
      rw [← mem_keys_traitMap_methods] at hcon
      exact hnk hcon
    · intro σ g s
      rw [complete_eq, hsub]

/-- Witness for the amended C5 at a concrete input: the method/constant
pair of distinct kinds, with the impl's constants trivially covered. -/
theorem C5_witness :
    (∀ (σ : Type) (g : Generator σ) (s : σ) (r : ItemImpl × σ),
        complete [TraitItem.const ⟨"x", 0⟩] (ItemImpl.mk 0 0 0 0 [ImplItem.method ⟨⟨"x", 0⟩, 0⟩]) g s
          ≠ .ok r)
      ∧ (ItemKind.method = ItemKind.method →
          implConstsCoveredB [TraitItem.const ⟨"x", 0⟩]
            (ItemImpl.mk 0 0 0 0 [ImplItem.method ⟨⟨"x", 0⟩, 0⟩]) = true →
          ∃ e v, subtract_items [TraitItem.const ⟨"x", 0⟩]
              (ItemImpl.mk 0 0 0 0 [ImplItem.method ⟨⟨"x", 0⟩, 0⟩]) = .error e
            ∧ e = methodErr v
            ∧ ImplItem.method v ∈ (ItemImpl.mk 0 0 0 0 [ImplItem.method ⟨⟨"x", 0⟩, 0⟩]).items
            ∧ traitHasMethodB [TraitItem.const ⟨"x", 0⟩] v.sig.ident = false
            ∧ ∀ (σ : Type) (g : Generator σ) (s : σ),
                complete [TraitItem.const ⟨"x", 0⟩]
                  (ItemImpl.mk 0 0 0 0 [ImplItem.method ⟨⟨"x", 0⟩, 0⟩]) g s = .error e) :=
  C5_kind_isolation [TraitItem.const ⟨"x", 0⟩] (ItemImpl.mk 0 0 0 0 [ImplItem.method ⟨⟨"x", 0⟩, 0⟩])
    "x" ItemKind.method ItemKind.const (by decide) rfl rfl rfl

/-- C6 counterexample: the claim predicts the message carries the actual
identifier (here "no associated constant called `foo` in trait"), but the
code produces the fixed literal "no associated constant called {ident} in
trait" with the placeholder never interpolated. -/
theorem C6_counterexample :
    subtract_items [] (ItemImpl.mk 0 0 0 0 [ImplItem.const ⟨"foo", 0⟩])
        = .error ⟨some (.const ⟨"foo", 0⟩), "no associated constant called {ident} in trait"⟩
      ∧ "no associated constant called {ident} in trait"
          ≠ "no associated constant called `foo` in trait" :=
  ⟨rfl, by decide⟩

/-- C6 (amended): every error the Differ produces is spanned at an
offending impl item of the block (carrying its kind, identifier and
source location through the spanned tokens), whose kind and identifier
the trait does not declare, and its message is the fixed per-kind
template — "no associated constant/function/type called {ident} in
trait" — with the `{ident}` placeholder left uninterpolated. -/
theorem C6_match_error_contents (ts : List TraitItem) (b : ItemImpl) (e : SynError)
    (h : subtract_items ts b = .error e) :
    ∃ sp, e.span = some sp ∧ sp.item ∈ b.items
      ∧ traitHasKindIdentB ts sp.kind sp.ident = false
      ∧ e.message = matchMessage sp.kind := by
  obtain ⟨sp, h1, h2, h3, h4⟩ := subtract_error_shape ts b e h
  exact ⟨sp, h1, h3, h4, h2⟩

/-- Witness for the amended C6 at a concrete input. -/
theorem C6_witness :
    ∃ sp, (SynError.mk (some (.const ⟨"foo", 0⟩))
        "no associated constant called {ident} in trait").span = some sp
      ∧ sp.item ∈ (ItemImpl.mk 0 0 0 0 [ImplItem.const ⟨"foo", 0⟩]).items
      ∧ traitHasKindIdentB [] sp.kind sp.ident = false
      ∧ (SynError.mk (some (.const ⟨"foo", 0⟩))
          "no associated constant called {ident} in trait").message = matchMessage sp.kind :=
  C6_match_error_contents [] (ItemImpl.mk 0 0 0 0 [ImplItem.const ⟨"foo", 0⟩])
    ⟨some (.const ⟨"foo", 0⟩), "no associated constant called {ident} in trait"⟩ rfl

/-- C3: if the generation phase fails, `complete` returns exactly the
generator's error and no block: the error `complete` returns is the very
error some generator call produced on a residual item, and nothing of the
partially accumulated output escapes (the `Except.error` result carries
no block; the inputs are values the pure call cannot mutate). -/
theorem C3_generator_error_propagates {σ : Type} (ts : List TraitItem) (b : ItemImpl)
    (g : Generator σ) (s : σ) (m : TraitItemMap) (e : SynError)
    (hsub : subtract_items ts b = .ok m) (hgen : genItems g m s = .error e) :
    complete ts b g s = .error e
      ∧ ((∃ s' c, c ∈ m.consts.map Prod.snd ∧ g.generate_const s' c = .error e)
        ∨ (∃ s' mm, mm ∈ m.methods.map Prod.snd ∧ g.generate_method s' mm = .error e)
        ∨ (∃ s' t, t ∈ m.types.map Prod.snd ∧ g.generate_type s' t = .error e)) := by
  constructor
  · rw [complete_eq, hsub]
    simp [hgen]
  · exact genItems_error_src g m s e hgen

/-- Witness for C3: scenario with two residual methods where the
generator fails; `complete` returns exactly the generator's error. -/
theorem C3_witness :
    complete [TraitItem.method ⟨⟨"p", 0⟩, 0⟩, TraitItem.method ⟨⟨"q", 0⟩, 0⟩]
        (ItemImpl.mk 0 0 0 0 []) exFailGen () = .error ⟨none, "cannot synthesize"⟩
      ∧ ((∃ s' c, c ∈ (TraitItemMap.mk []
            [("p", ⟨⟨"p", 0⟩, 0⟩), ("q", ⟨⟨"q", 0⟩, 0⟩)] []).consts.map Prod.snd
          ∧ exFailGen.generate_const s' c = .error ⟨none, "cannot synthesize"⟩)
        ∨ (∃ s' mm, mm ∈ (TraitItemMap.mk []
            [("p", ⟨⟨"p", 0⟩, 0⟩), ("q", ⟨⟨"q", 0⟩, 0⟩)] []).methods.map Prod.snd
          ∧ exFailGen.generate_method s' mm = .error ⟨none, "cannot synthesize"⟩)
        ∨ (∃ s' t, t ∈ (TraitItemMap.mk []
            [("p", ⟨⟨"p", 0⟩, 0⟩), ("q", ⟨⟨"q", 0⟩, 0⟩)] []).types.map Prod.snd
          ∧ exFailGen.generate_type s' t = .error ⟨none, "cannot synthesize"⟩)) :=
  C3_generator_error_propagates [TraitItem.method ⟨⟨"p", 0⟩, 0⟩, TraitItem.method ⟨⟨"q", 0⟩, 0⟩]
    (ItemImpl.mk 0 0 0 0 []) exFailGen ()
    (TraitItemMap.mk [] [("p", ⟨⟨"p", 0⟩, 0⟩), ("q", ⟨⟨"q", 0⟩, 0⟩)] [])
    ⟨none, "cannot synthesize"⟩ rfl rfl

/-- C7: the generator is invoked exactly once per residual item,
sequentially and strictly in kind order — all residual constants, then
all residual methods, then all residual types: instrumenting any
generator with a call log shows the log of a successful completion is
exactly the residual items in that order, and the synthesized items are
appended to the output block in the same order the calls were made. -/
theorem C7_generator_call_order {σ : Type} (ts : List TraitItem) (b : ItemImpl)
    (g : Generator σ) (s : σ) (m : TraitItemMap) (l : List ImplItem) (s' : σ)
    (hsub : subtract_items ts b = .ok m) (hgen : genItems g m s = .ok (l, s')) :
    complete ts b (withTrace g) (s, []) = .ok ({ b with items := b.items ++ l }, (s', traceOf m)) := by
  rw [complete_eq]
  simp only [hsub]
  rw [genItems_traced]
  simp [hgen]

/-- Witness for C7: trait {const N, method f, type Output}, impl
implements only f; the log is the const call then the type call. -/
theorem C7_witness :
    complete [TraitItem.const ⟨"N", 0⟩, TraitItem.method ⟨⟨"f", 0⟩, 0⟩,
        TraitItem.type ⟨"Output", 0⟩]
      (ItemImpl.mk 0 0 0 0 [ImplItem.method ⟨⟨"f", 0⟩, 0⟩]) (withTrace exGen) ((), [])
      = .ok ({ ItemImpl.mk 0 0 0 0 [ImplItem.method ⟨⟨"f", 0⟩, 0⟩] with
            items := (ItemImpl.mk 0 0 0 0 [ImplItem.method ⟨⟨"f", 0⟩, 0⟩]).items
              ++ [ImplItem.const ⟨"N", 0⟩, ImplItem.type ⟨"Output", 0⟩] },
          ((), traceOf (TraitItemMap.mk [("N", ⟨"N", 0⟩)] [] [("Output", ⟨"Output", 0⟩)]))) :=
  C7_generator_call_order [TraitItem.const ⟨"N", 0⟩, TraitItem.method ⟨⟨"f", 0⟩, 0⟩,
      TraitItem.type ⟨"Output", 0⟩]
    (ItemImpl.mk 0 0 0 0 [ImplItem.method ⟨⟨"f", 0⟩, 0⟩]) exGen ()
    (TraitItemMap.mk [("N", ⟨"N", 0⟩)] [] [("Output", ⟨"Output", 0⟩)])
    [ImplItem.const ⟨"N", 0⟩, ImplItem.type ⟨"Output", 0⟩] () rfl rfl

/-- C1 counterexample: the claim's hypotheses admit an impl block with
two constants named "a" (both matched by the trait constant "a");
`complete` succeeds and returns the block unchanged, whose items contain
a duplicate (constant, "a") pair — the claimed duplicate-freedom fails. -/
theorem C1_counterexample :
    implCoveredB [TraitItem.const ⟨"a", 0⟩]
        (ItemImpl.mk 0 0 0 0 [ImplItem.const ⟨"a", 1⟩, ImplItem.const ⟨"a", 2⟩]) = true
      ∧ complete [TraitItem.const ⟨"a", 0⟩]
          (ItemImpl.mk 0 0 0 0 [ImplItem.const ⟨"a", 1⟩, ImplItem.const ⟨"a", 2⟩]) exGen ()
          = .ok (ItemImpl.mk 0 0 0 0 [ImplItem.const ⟨"a", 1⟩, ImplItem.const ⟨"a", 2⟩], ())
      ∧ ¬ (implConstIdents
          (ItemImpl.mk 0 0 0 0 [ImplItem.const ⟨"a", 1⟩, ImplItem.const ⟨"a", 2⟩])).Nodup :=
  ⟨rfl, rfl, by decide⟩

/-- C1 (amended): under per-kind duplicate-free identifiers on both
sides, for an impl block whose const, method and type items all have
trait counterparts, `subtract_items` succeeds and the residual maps are
exactly the unmatched trait items of each kind in declaration order; if
additionally the generator succeeds on every residual item and names
each synthesized item after its trait item, `complete` succeeds and the
output block's items are exactly the original impl items followed by one
generated item per residual trait item, with no duplicate
(kind, identifier) among the output's consts, methods or types. -/
theorem C1_residual_and_completion {σ : Type} (ts : List TraitItem) (b : ItemImpl)
    (g : Generator σ) (s : σ)
    (htc : (traitConstIdents ts).Nodup) (htm : (traitMethodIdents ts).Nodup)
    (htt : (traitTypeIdents ts).Nodup)
    (hic : (implConstIdents b).Nodup) (him : (implMethodIdents b).Nodup)
    (hit : (implTypeIdents b).Nodup)
    (hcov : implCoveredB ts b = true)
    (hpres : GenPreservesIdent g) :
    ∃ m, subtract_items ts b = .ok m
      ∧ m.consts = residualConsts ts b
      ∧ m.methods = residualMethods ts b
      ∧ m.types = residualTypes ts b
      ∧ (GenTotalOn g m →
          ∃ (out : ItemImpl) (s' : σ) (gc : List ImplItemConst) (gm : List ImplItemMethod)
            (gt : List ImplItemType), complete ts b g s = .ok (out, s')
            ∧ out.items = b.items
                ++ (gc.map ImplItem.const ++ gm.map ImplItem.method ++ gt.map ImplItem.type)
            ∧ gc.map (fun o => o.ident) = m.consts.map Prod.fst
            ∧ gm.map (fun o => o.sig.ident) = m.methods.map Prod.fst
            ∧ gt.map (fun o => o.ident) = m.types.map Prod.fst
            ∧ (implConstIdents out).Nodup ∧ (implMethodIdents out).Nodup
            ∧ (implTypeIdents out).Nodup) := by
  have hTMc : (TraitItemMap.new ts).consts = ts.filterMap traitConstProj := by
    rw [traitMap_new_consts]
    apply buildPairs_of_nodup
    rw [keys_traitConstPairs]
    exact htc
  have hTMm : (TraitItemMap.new ts).methods = ts.filterMap traitMethodProj := by
    rw [traitMap_new_methods]
    apply buildPairs_of_nodup
    rw [keys_traitMethodPairs]
    exact htm
  have hTMt : (TraitItemMap.new ts).types = ts.filterMap traitTypeProj := by
    rw [traitMap_new_types]
    apply buildPairs_of_nodup
    rw [keys_traitTypePairs]
    exact htt
  have hpredc : ∀ p : String × TraitItemConst,
      (decide (p.1 ∉ keysOf (ImplItemMap.new b).consts)) = ! implHasConstB b p.1 := by
    intro p
    by_cases hx : implHasConstB b p.1 = true
    · have hmemk : p.1 ∈ keysOf (ImplItemMap.new b).consts :=
        (mem_keys_implMap_consts b p.1).mpr hx
      simp [hmemk, hx]
    · have hnmem : p.1 ∉ keysOf (ImplItemMap.new b).consts := by
        rw [mem_keys_implMap_consts]; exact hx
      have hf : implHasConstB b p.1 = false := Bool.eq_false_iff.mpr hx
      rw [hf]
      simp [hnmem]
  have hpredm : ∀ p : String × TraitItemMethod,
      (decide (p.1 ∉ keysOf (ImplItemMap.new b).methods)) = ! implHasMethodB b p.1 := by
    intro p
    by_cases hx : implHasMethodB b p.1 = true
    · have hmemk : p.1 ∈ keysOf (ImplItemMap.new b).methods :=
        (mem_keys_implMap_methods b p.1).mpr hx
      simp [hmemk, hx]
    · have hnmem : p.1 ∉ keysOf (ImplItemMap.new b).methods := by
        rw [mem_keys_implMap_methods]; exact hx
      have hf : implHasMethodB b p.1 = false := Bool.eq_false_iff.mpr hx
      rw [hf]
      simp [hnmem]
  have hpredt : ∀ p : String × TraitItemType,
      (decide (p.1 ∉ keysOf (ImplItemMap.new b).types)) = ! implHasTypeB b p.1 := by
    intro p
    by_cases hx : implHasTypeB b p.1 = true
    · have hmemk : p.1 ∈ keysOf (ImplItemMap.new b).types :=
        (mem_keys_implMap_types b p.1).mpr hx
      simp [hmemk, hx]
    · have hnmem : p.1 ∉ keysOf (ImplItemMap.new b).types := by
        rw [mem_keys_implMap_types]; exact hx
      have hf : implHasTypeB b p.1 = false := Bool.eq_false_iff.mpr hx
      rw [hf]
      simp [hnmem]
  have hmc : (TraitItemMap.new ts).consts.filter
      (fun p => p.1 ∉ keysOf (ImplItemMap.new b).consts) = residualConsts ts b := by
    rw [hTMc]
    exact filter_ext_bool _ _ hpredc _
  have hmm2 : (TraitItemMap.new ts).methods.filter
      (fun p => p.1 ∉ keysOf (ImplItemMap.new b).methods) = residualMethods ts b := by
    rw [hTMm]
    exact filter_ext_bool _ _ hpredm _
  have hmt2 : (TraitItemMap.new ts).types.filter
      (fun p => p.1 ∉ keysOf (ImplItemMap.new b).types) = residualTypes ts b := by
    rw [hTMt]
    exact filter_ext_bool _ _ hpredt _
  have hsub2 : subtract_items ts b
      = .ok ⟨residualConsts ts b, residualMethods ts b, residualTypes ts b⟩ := by
    rw [subtract_ok_covered ts b hcov, hmc, hmm2, hmt2]
  have hresc : (residualConsts ts b).map Prod.fst
      = (traitConstIdents ts).filter (fun x => ! implHasConstB b x) :=
    (keysOf_filter (fun x => ! implHasConstB b x) (ts.filterMap traitConstProj)).trans
      (by rw [keys_traitConstPairs])
  have hresm : (residualMethods ts b).map Prod.fst
      = (traitMethodIdents ts).filter (fun x => ! implHasMethodB b x) :=
    (keysOf_filter (fun x => ! implHasMethodB b x) (ts.filterMap traitMethodProj)).trans
      (by rw [keys_traitMethodPairs])
  have hrest : (residualTypes ts b).map Prod.fst
      = (traitTypeIdents ts).filter (fun x => ! implHasTypeB b x) :=
    (keysOf_filter (fun x => ! implHasTypeB b x) (ts.filterMap traitTypeProj)).trans
      (by rw [keys_traitTypePairs])
  refine ⟨⟨residualConsts ts b, residualMethods ts b, residualTypes ts b⟩,
    hsub2, rfl, rfl, rfl, ?_⟩
  intro htot
  obtain ⟨htot1, htot2, htot3⟩ := htot
  obtain ⟨gc, s1, hgc, hmapc⟩ := genLoop_total g.generate_const
    (fun c : TraitItemConst => c.ident) (fun o : ImplItemConst => o.ident) hpres.1
    (residualConsts ts b) s htot1
  obtain ⟨gm, s2, hgm, hmapm⟩ := genLoop_total g.generate_method
    (fun c : TraitItemMethod => c.sig.ident) (fun o : ImplItemMethod => o.sig.ident) hpres.2.1
    (residualMethods ts b) s1 htot2
  obtain ⟨gt, s3, hgt, hmapt⟩ := genLoop_total g.generate_type
    (fun c : TraitItemType => c.ident) (fun o : ImplItemType => o.ident) hpres.2.2
    (residualTypes ts b) s2 htot3
  have hkeysc : gc.map (fun o : ImplItemConst => o.ident)
      = (residualConsts ts b).map Prod.fst := by
    rw [hmapc, List.map_map]
    apply map_eq_of_forall
    intro p hp
    exact mem_traitConstProj_ident ts p (List.mem_of_mem_filter hp)
  have hkeysm : gm.map (fun o : ImplItemMethod => o.sig.ident)
      = (residualMethods ts b).map Prod.fst := by
    rw [hmapm, List.map_map]
    apply map_eq_of_forall
    intro p hp
    exact mem_traitMethodProj_ident ts p (List.mem_of_mem_filter hp)
  have hkeyst : gt.map (fun o : ImplItemType => o.ident)
      = (residualTypes ts b).map Prod.fst := by
    rw [hmapt, List.map_map]
    apply map_eq_of_forall
    intro p hp
    exact mem_traitTypeProj_ident ts p (List.mem_of_mem_filter hp)
  have hgen := genItems_ok_of_loops g
    ⟨residualConsts ts b, residualMethods ts b, residualTypes ts b⟩ s
    gc s1 gm s2 gt s3 hgc hgm hgt
  have hcomp : complete ts b g s
      = .ok ({ b with items := b.items ++ (gc.map ImplItem.const ++ gm.map ImplItem.method
          ++ gt.map ImplItem.type) }, s3) := by
    rw [complete_eq]
    simp only [hsub2]
    simp [hgen, List.append_assoc]
  have houtc : implConstIdents ({ b with items := b.items ++ (gc.map ImplItem.const
        ++ gm.map ImplItem.method ++ gt.map ImplItem.type) } : ItemImpl)
      = implConstIdents b ++ gc.map (fun o : ImplItemConst => o.ident) := by
    rw [(keys_implConstPairs ({ b with items := b.items ++ (gc.map ImplItem.const
      ++ gm.map ImplItem.method ++ gt.map ImplItem.type) } : ItemImpl)).symm]
    rw [show ({ b with items := b.items ++ (gc.map ImplItem.const
        ++ gm.map ImplItem.method ++ gt.map ImplItem.type) } : ItemImpl).items
      = b.items ++ (gc.map ImplItem.const ++ gm.map ImplItem.method
        ++ gt.map ImplItem.type) from rfl]
    rw [List.filterMap_append, List.filterMap_append, List.filterMap_append,
      constProj_map_const, constProj_map_method, constProj_map_type,
      keysOf_append, keys_implConstPairs]
    simp [keysOf, List.map_map]
  have houtm : implMethodIdents ({ b with items := b.items ++ (gc.map ImplItem.const
        ++ gm.map ImplItem.method ++ gt.map ImplItem.type) } : ItemImpl)
      = implMethodIdents b ++ gm.map (fun o : ImplItemMethod => o.sig.ident) := by
    rw [(keys_implMethodPairs ({ b with items := b.items ++ (gc.map ImplItem.const
      ++ gm.map ImplItem.method ++ gt.map ImplItem.type) } : ItemImpl)).symm]
    rw [show ({ b with items := b.items ++ (gc.map ImplItem.const
        ++ gm.map ImplItem.method ++ gt.map ImplItem.type) } : ItemImpl).items
      = b.items ++ (gc.map ImplItem.const ++ gm.map ImplItem.method
        ++ gt.map ImplItem.type) from rfl]
    rw [List.filterMap_append, List.filterMap_append, List.filterMap_append,
      methodProj_map_const, methodProj_map_method, methodProj_map_type,
      keysOf_append, keys_implMethodPairs]
    simp [keysOf, List.map_map]
  have houtt : implTypeIdents ({ b with items := b.items ++ (gc.map ImplItem.const
        ++ gm.map ImplItem.method ++ gt.map ImplItem.type) } : ItemImpl)
      = implTypeIdents b ++ gt.map (fun o : ImplItemType => o.ident) := by
    rw [(keys_implTypePairs ({ b with items := b.items ++ (gc.map ImplItem.const
      ++ gm.map ImplItem.method ++ gt.map ImplItem.type) } : ItemImpl)).symm]
    rw [show ({ b with items := b.items ++ (gc.map ImplItem.const
        ++ gm.map ImplItem.method ++ gt.map ImplItem.type) } : ItemImpl).items
      = b.items ++ (gc.map ImplItem.const ++ gm.map ImplItem.method
        ++ gt.map ImplItem.type) from rfl]
    rw [List.filterMap_append, List.filterMap_append, List.filterMap_append,
      typeProj_map_const, typeProj_map_method, typeProj_map_type,
      keysOf_append, keys_implTypePairs]
    simp [keysOf, List.map_map]
  refine ⟨_, s3, gc, gm, gt, hcomp, rfl, hkeysc, hkeysm, hkeyst, ?_, ?_, ?_⟩
  · rw [houtc, List.nodup_append]
    refine ⟨hic, ?_, ?_⟩
    · rw [hkeysc, hresc]
      exact List.Nodup.filter _ htc
    · intro a ha hb
      rw [hkeysc, hresc, List.mem_filter] at hb
      obtain ⟨_, hbn⟩ := hb
      rw [← implHasConstB_iff] at ha
      rw [ha] at hbn
      simp at hbn
  · rw [houtm, List.nodup_append]
    refine ⟨him, ?_, ?_⟩
    · rw [hkeysm, hresm]
      exact List.Nodup.filter _ htm
    · intro a ha hb
      rw [hkeysm, hresm, List.mem_filter] at hb
      obtain ⟨_, hbn⟩ := hb
      rw [← implHasMethodB_iff] at ha
      rw [ha] at hbn
      simp at hbn
  · rw [houtt, List.nodup_append]
    refine ⟨hit, ?_, ?_⟩
    · rw [hkeyst, hrest]
      exact List.Nodup.filter _ htt
    · intro a ha hb
      rw [hkeyst, hrest, List.mem_filter] at hb
      obtain ⟨_, hbn⟩ := hb
      rw [← implHasTypeB_iff] at ha
      rw [ha] at hbn
      simp at hbn

/-- Witness for the amended C1: trait {const N, method f, type Output},
impl implements only f, generator `exGen`. -/
theorem C1_witness :
    ∃ m, subtract_items
        [TraitItem.const ⟨"N", 0⟩, TraitItem.method ⟨⟨"f", 0⟩, 0⟩, TraitItem.type ⟨"Output", 0⟩]
        (ItemImpl.mk 0 0 0 0 [ImplItem.method ⟨⟨"f", 0⟩, 0⟩]) = .ok m
      ∧ m.consts = residualConsts
          [TraitItem.const ⟨"N", 0⟩, TraitItem.method ⟨⟨"f", 0⟩, 0⟩, TraitItem.type ⟨"Output", 0⟩]
          (ItemImpl.mk 0 0 0 0 [ImplItem.method ⟨⟨"f", 0⟩, 0⟩])
      ∧ m.methods = residualMethods
          [TraitItem.const ⟨"N", 0⟩, TraitItem.method ⟨⟨"f", 0⟩, 0⟩, TraitItem.type ⟨"Output", 0⟩]
          (ItemImpl.mk 0 0 0 0 [ImplItem.method ⟨⟨"f", 0⟩, 0⟩])
      ∧ m.types = residualTypes
          [TraitItem.const ⟨"N", 0⟩, TraitItem.method ⟨⟨"f", 0⟩, 0⟩, TraitItem.type ⟨"Output", 0⟩]
          (ItemImpl.mk 0 0 0 0 [ImplItem.method ⟨⟨"f", 0⟩, 0⟩])
      ∧ (GenTotalOn exGen m →
          ∃ (out : ItemImpl) (s' : Unit) (gc : List ImplItemConst) (gm : List ImplItemMethod)
            (gt : List ImplItemType),
            complete
              [TraitItem.const ⟨"N", 0⟩, TraitItem.method ⟨⟨"f", 0⟩, 0⟩,
                TraitItem.type ⟨"Output", 0⟩]
              (ItemImpl.mk 0 0 0 0 [ImplItem.method ⟨⟨"f", 0⟩, 0⟩]) exGen () = .ok (out, s')
            ∧ out.items = (ItemImpl.mk 0 0 0 0 [ImplItem.method ⟨⟨"f", 0⟩, 0⟩]).items
                ++ (gc.map ImplItem.const ++ gm.map ImplItem.method ++ gt.map ImplItem.type)
            ∧ gc.map (fun o => o.ident) = m.consts.map Prod.fst
            ∧ gm.map (fun o => o.sig.ident) = m.methods.map Prod.fst
            ∧ gt.map (fun o => o.ident) = m.types.map Prod.fst
            ∧ (implConstIdents out).Nodup ∧ (implMethodIdents out).Nodup
            ∧ (implTypeIdents out).Nodup) :=
  C1_residual_and_completion
    [TraitItem.const ⟨"N", 0⟩, TraitItem.method ⟨⟨"f", 0⟩, 0⟩, TraitItem.type ⟨"Output", 0⟩]
    (ItemImpl.mk 0 0 0 0 [ImplItem.method ⟨⟨"f", 0⟩, 0⟩]) exGen ()
    (by decide) (by decide) (by decide) (by decide) (by decide) (by decide) rfl exGen_preserves

end Portrait
